import Mathlib

/-!
Verification of the nocoflo datasource core: condition grammar and spec
validation (`src/components/datasources/base_datasource.py`), the SQLite and
PostgreSQL backend plugins' clause builders and `read`
(`src/components/datasources/plugins/`), the permission model
(`src/metadata.py`, `src/components/common/permissions.py`) and the row-lock
manager (`src/pages/table_view.py`), shallowly embedded in Lean.

Python scalars that flow through specs and SQL parameters are modelled by
`PyValue`; SQLite stores backing the metadata database are modelled as lists
of rows in insertion (rowid) order, with `INSERT OR REPLACE` given its real
SQLite semantics for the transcribed schemas (the `row_lock` and `permission`
tables declare no UNIQUE constraint besides the auto-assigned `id`, so the
statement never conflicts and behaves as a plain insert).
-/

namespace Nocoflo

/-- Python values that appear in specs and SQL parameters: ints, strings and
sequences (used by the `in` operator). -/
inductive PyValue where
  | vInt (n : Int)
  | vStr (s : String)
  | vList (xs : List PyValue)
deriving Repr

mutual

/-- Structural equality test on `PyValue` (Python `==` on these values). -/
def PyValue.beq : PyValue → PyValue → Bool
  | .vInt a, .vInt b => a == b
  | .vStr a, .vStr b => a == b
  | .vList as, .vList bs => PyValue.beqList as bs
  | _, _ => false

/-- Pointwise `PyValue.beq` on lists. -/
def PyValue.beqList : List PyValue → List PyValue → Bool
  | [], [] => true
  | a :: as, b :: bs => PyValue.beq a b && PyValue.beqList as bs
  | _, _ => false

end

instance : BEq PyValue := ⟨PyValue.beq⟩

/-- Decimal digit character for `n < 10`. -/
def digitChar (n : Nat) : Char := Char.ofNat (48 + n)

/-- Big-endian decimal digits of a natural number, as Python's `str(n)` /
an f-string renders a non-negative int. -/
def natChars (n : Nat) : List Char :=
  if _h : n < 10 then [digitChar n]
  else natChars (n / 10) ++ [digitChar (n % 10)]
decreasing_by exact Nat.div_lt_self (by omega) (by omega)

/-- Decimal rendering of a natural number. -/
def natStr (n : Nat) : String := String.mk (natChars n)

/-- Decimal rendering of an integer, as Python renders an int in an f-string. -/
def intStr (i : Int) : String :=
  if i < 0 then "-" ++ natStr i.natAbs else natStr i.natAbs

/-- Evaluate big-endian decimal digits back to a natural number. -/
def digitsVal (cs : List Char) : Nat :=
  cs.foldl (fun a c => a * 10 + (c.toNat - 48)) 0

/-- Operators accepted by the pydantic `Literal` on `Condition.op`
(`base_datasource.py` line 22). -/
def allowedOps : List String := ["=", "!=", "<", "<=", ">", ">=", "in"]

/-- Transcribes `Condition` (`base_datasource.py` lines 20-23): `field`, `op`
and an arbitrary `value` object. -/
structure Condition where
  field : String
  op : String
  value : PyValue
deriving Repr

/-- Transcribes `ConditionUnion = Union[Condition, ConditionList]`
(`base_datasource.py` lines 25-36); `group` holds a `ConditionList`'s `mode`
and `filters`. -/
inductive ConditionUnion where
  | cond (c : Condition)
  | group (mode : String) (filters : List ConditionUnion)
deriving Repr

/-- Pydantic construction of a `Condition`: the only validation is the
`Literal` on `op`; `value : object` accepts anything. -/
def mkCondition (f op : String) (v : PyValue) : Except String Condition :=
  if op ∈ allowedOps then .ok ⟨f, op, v⟩
  else .error "op must be one of =, !=, <, <=, >, >=, in"

/-- Pydantic construction of a `ConditionList`: the `pre=True` root validator
`ensure_non_empty` rejects a missing (`none`) or empty `filters` before the
`Literal` check on `mode` runs (`base_datasource.py` lines 25-34). -/
def mkConditionList (mode : String) (filters : Option (List ConditionUnion)) :
    Except String ConditionUnion :=
  match filters with
  | none => .error "filters must be a non-empty list"
  | some [] => .error "filters must be a non-empty list"
  | some fs =>
    if mode = "AND" ∨ mode = "OR" then .ok (.group mode fs)
    else .error "mode must be AND or OR"

/-- Transcribes `OrderItem` (`base_datasource.py` lines 38-40). -/
structure OrderItem where
  field : String
  ascending : Bool := true
deriving Repr

/-- Transcribes `QuerySpec` (`base_datasource.py` lines 42-46). -/
structure QuerySpec where
  limit : Option Int := none
  offset : Int := 0
  order_by : Option (List OrderItem) := none
  filter : Option ConditionUnion := none
deriving Repr

/-- Pydantic construction of a `QuerySpec`: `limit` has `ge=1` (checked only
when present), `offset` has `ge=0`. -/
def mkQuerySpec (limit : Option Int) (offset : Int)
    (order_by : Option (List OrderItem)) (filter : Option ConditionUnion) :
    Except String QuerySpec :=
  match limit with
  | some l =>
    if l < 1 then .error "limit must be >= 1"
    else if offset < 0 then .error "offset must be >= 0"
    else .ok ⟨some l, offset, order_by, filter⟩
  | none =>
    if offset < 0 then .error "offset must be >= 0"
    else .ok ⟨none, offset, order_by, filter⟩

/-- Transcribes `UpdateSpec` (`base_datasource.py` lines 51-53); the payload
dict is modelled as an association list in insertion order. -/
structure UpdateSpec where
  filters : ConditionUnion
  payload : List (String × PyValue)
deriving Repr

/-- Transcribes `DeleteSpec` (`base_datasource.py` lines 55-56). -/
structure DeleteSpec where
  filters : ConditionUnion
deriving Repr

/-- Python iteration `for _ in v`: lists yield their elements, strings yield
their characters as one-character strings, ints raise `TypeError`. -/
def pyIter : PyValue → Except String (List PyValue)
  | .vList xs => .ok xs
  | .vStr s => .ok (s.data.map (fun c => .vStr (String.mk [c])))
  | .vInt _ => .error "TypeError: int is not iterable"

/-- Python's `sep.join(parts)`. -/
def sepJoin (sep : String) : List String → String
  | [] => ""
  | [x] => x
  | x :: xs => x ++ sep ++ sepJoin sep xs

mutual

/-- Transcribes `SQLiteDataSource._build_where` (`sqlite_plugin.py` lines
91-106): positional `?` placeholders, parameters as a list. -/
def sqliteBuildWhere : ConditionUnion → Except String (String × List PyValue)
  | .cond c =>
    if c.op = "in" then
      match pyIter c.value with
      | .error e => .error e
      | .ok vs =>
        .ok (c.field ++ " IN (" ++ sepJoin ", " (vs.map (fun _ => "?")) ++ ")", vs)
    else
      .ok (c.field ++ " " ++ c.op ++ " ?", [c.value])
  | .group mode fs =>
    match sqliteBuildWhereList fs with
    | .error e => .error e
    | .ok (cls, ps) =>
      .ok (sepJoin (if mode = "AND" then " AND " else " OR ") cls, ps)

/-- The `for sub in node.filters` loop of `SQLiteDataSource._build_where`:
each rendered child is parenthesized, parameters are concatenated in order. -/
def sqliteBuildWhereList : List ConditionUnion →
    Except String (List String × List PyValue)
  | [] => .ok ([], [])
  | n :: ns =>
    match sqliteBuildWhere n with
    | .error e => .error e
    | .ok (cl, ps) =>
      match sqliteBuildWhereList ns with
      | .error e => .error e
      | .ok (cls, ps2) => .ok (("(" ++ cl ++ ")") :: cls, ps ++ ps2)

end

/-- A Python dict with string keys, in insertion order. -/
abbrev Dict : Type := List (String × PyValue)

/-- Python `d[k] = v`: replaces in place if the key exists, else appends. -/
def dictInsert (d : Dict) (k : String) (v : PyValue) : Dict :=
  if (List.any d (fun e => e.1 == k)) then
    List.map (fun e => if e.1 == k then (k, v) else e) d
  else d ++ [(k, v)]

/-- Python `d[k]` lookup (first — unique — matching key). -/
def dictLookup (d : Dict) (k : String) : Option PyValue :=
  (List.find? (fun e => e.1 == k) d).map (fun e => e.2)

/-- The `for idx, val in enumerate(node.value)` loop in
`PostgreSQLDataSource._build_where` for the `in` operator
(`postgresql_plugin.py` lines 93-97): placeholders `:base_idx`, each value
bound under that name. -/
def pgInLoop (base : String) : List PyValue → Nat → Dict → List String × Dict
  | [], _, params => ([], params)
  | v :: rest, idx, params =>
    let pname := base ++ "_" ++ natStr idx
    let params2 := dictInsert params pname v
    let pr := pgInLoop base rest (idx + 1) params2
    ((":" ++ pname) :: pr.1, pr.2)

mutual

/-- Transcribes `PostgreSQLDataSource._build_where` (`postgresql_plugin.py`
lines 86-110): named `:name` placeholders, a shared params dict threaded
through the recursion, fresh name prefixes per nesting level. -/
def pgBuildWhere (node : ConditionUnion) (params : Dict) (pfx : String) :
    Except String (String × Dict) :=
  match node with
  | .cond c =>
    let pname := pfx ++ "_" ++ natStr (List.length params)
    if c.op = "in" then
      match pyIter c.value with
      | .error e => .error e
      | .ok vs =>
        let pr := pgInLoop pname vs 0 params
        .ok (c.field ++ " IN (" ++ sepJoin ", " pr.1 ++ ")", pr.2)
    else
      .ok (c.field ++ " " ++ c.op ++ " :" ++ pname, dictInsert params pname c.value)
  | .group mode fs =>
    match pgGroupLoop fs 0 params pfx with
    | .error e => .error e
    | .ok (cls, params2) =>
      .ok (sepJoin (if mode = "AND" then " AND " else " OR ") cls, params2)

/-- The `for idx, sub in enumerate(node.filters)` loop of
`PostgreSQLDataSource._build_where`: child `idx` gets prefix
`f"{param_prefix}{idx}"`, the params dict is threaded through. -/
def pgGroupLoop (fs : List ConditionUnion) (idx : Nat) (params : Dict)
    (pfx : String) : Except String (List String × Dict) :=
  match fs with
  | [] => .ok ([], params)
  | n :: ns =>
    match pgBuildWhere n params (pfx ++ natStr idx) with
    | .error e => .error e
    | .ok (cl, params2) =>
      match pgGroupLoop ns (idx + 1) params2 pfx with
      | .error e => .error e
      | .ok (cls, paramsF) => .ok (("(" ++ cl ++ ")") :: cls, paramsF)

end

/-- The `ORDER BY` fragment shared verbatim by `read` in both plugins
(`sqlite_plugin.py` lines 70-72, `postgresql_plugin.py` lines 66-68),
including the Python truthiness test `if query.order_by:` (absent or empty
list adds nothing). -/
def orderPart (q : QuerySpec) : String :=
  match q.order_by with
  | some os =>
    if os.isEmpty then ""
    else " ORDER BY " ++
      sepJoin ", " (os.map (fun o => o.field ++ " " ++ (if o.ascending then "ASC" else "DESC")))
  | none => ""

/-- The `LIMIT` fragment (`if query.limit:` — absent or zero adds nothing). -/
def limitPart (q : QuerySpec) : String :=
  match q.limit with
  | some l => if l = 0 then "" else " LIMIT " ++ intStr l
  | none => ""

/-- The `OFFSET` fragment (`if query.offset:` — zero adds nothing). -/
def offsetPart (q : QuerySpec) : String :=
  if q.offset = 0 then "" else " OFFSET " ++ intStr q.offset

/-- The SQL text and positional parameters built by `SQLiteDataSource.read`
(`sqlite_plugin.py` lines 57-80) before execution, for the connection's
current table. -/
def sqliteReadBuild (table : String) (q : QuerySpec) :
    Except String (String × List PyValue) :=
  match q.filter with
  | some f =>
    match sqliteBuildWhere f with
    | .error e => .error e
    | .ok (cl, ps) =>
      .ok ("SELECT * FROM " ++ table ++ " WHERE " ++ cl ++
        orderPart q ++ limitPart q ++ offsetPart q, ps)
  | none =>
    .ok ("SELECT * FROM " ++ table ++ orderPart q ++ limitPart q ++ offsetPart q, [])

/-- The SQL text and named parameters built by `PostgreSQLDataSource.read`
(`postgresql_plugin.py` lines 57-77) before execution: the fresh `params`
dict is passed to `_build_where` with the default prefix `"p"`. -/
def pgReadBuild (table : String) (q : QuerySpec) : Except String (String × Dict) :=
  match q.filter with
  | some f =>
    match pgBuildWhere f [] "p" with
    | .error e => .error e
    | .ok (cl, params) =>
      .ok ("SELECT * FROM " ++ table ++ " WHERE " ++ cl ++
        orderPart q ++ limitPart q ++ offsetPart q, params)
  | none =>
    .ok ("SELECT * FROM " ++ table ++ orderPart q ++ limitPart q ++ offsetPart q, [])

/-- Modelled from the spec: `mysql_plugin.py` is imported by
`plugins/__init__.py` and exercised by `tests/test_mysql_plugin.py`, but the
module itself is missing from the source tree. Spec §4.3 states the three
plugins differ only in connection-string construction, placeholder syntax and
driver calls, with `:name` placeholders for Postgres/MySQL and an identical
tree-walk, and the MySQL tests assert the same `:p...` naming scheme as
PostgreSQL; so the MySQL clause builder is modelled as the PostgreSQL one. -/
def mysqlBuildWhere : ConditionUnion → Dict → String → Except String (String × Dict) :=
  pgBuildWhere

/-- Modelled from the spec: the missing MySQL plugin's `read` builds the same
`SELECT`/`WHERE`/`ORDER BY`/`LIMIT`/`OFFSET` text as the PostgreSQL one
(spec §4.2-4.3 and `tests/test_mysql_plugin.py`). -/
def mysqlReadBuild : String → QuerySpec → Except String (String × Dict) :=
  pgReadBuild

/-- Characters SQLAlchemy reads as part of a `:name` bind parameter. -/
def isNameChar (c : Char) : Bool := c.isAlphanum || c == '_'

/-- Rendering of one bound value into SQL literal text; both backends' texts
are compared after substituting with the same rendering. -/
def renderVal : PyValue → String
  | .vInt n => intStr n
  | .vStr s => "'" ++ s ++ "'"
  | .vList _ => "<list>"

/-- Substitute positional `?` placeholders left to right with rendered
parameter values (the sqlite3 driver's binding), returning the rendered text
and the unconsumed parameters. Substituted text is emitted verbatim, never
rescanned. -/
def substPosChars : List Char → List PyValue → List Char × List PyValue
  | [], ps => ([], ps)
  | c :: rest, ps =>
    if c = '?' then
      match ps with
      | p :: ps2 =>
        let pr := substPosChars rest ps2
        ((renderVal p).data ++ pr.1, pr.2)
      | [] =>
        let pr := substPosChars rest []
        (c :: pr.1, pr.2)
    else
      let pr := substPosChars rest ps
      (c :: pr.1, pr.2)

/-- Positional substitution of a whole SQL string. -/
def substPos (s : String) (ps : List PyValue) : String :=
  String.mk (substPosChars s.data ps).1

/-- Substitute named `:name` placeholders (a colon followed by the maximal run
of name characters) with the rendered value bound under that name (the
SQLAlchemy `text` binding). An unbound name is left in place. -/
def substNamedChars (d : Dict) : List Char → List Char
  | [] => []
  | c :: rest =>
    if c = ':' then
      (match dictLookup d (String.mk (rest.takeWhile isNameChar)) with
       | some v => (renderVal v).data
       | none => ':' :: rest.takeWhile isNameChar) ++
        substNamedChars d (rest.dropWhile isNameChar)
    else c :: substNamedChars d rest
termination_by l => l.length
decreasing_by
  · have h : ∀ (l : List Char), (List.dropWhile isNameChar l).length ≤ l.length := by
      intro l
      induction l with
      | nil => simp
      | cons x xs ih =>
        rw [List.dropWhile]
        split
        · exact Nat.le_trans ih (Nat.le_succ _)
        · simp
    have := h rest
    simp only [List.length_cons]
    omega
  · simp only [List.length_cons]
    omega

/-- Named substitution of a whole SQL string. -/
def substNamed (s : String) (d : Dict) : String :=
  String.mk (substNamedChars d s.data)

/-- Count occurrences of a character in a string (used to count `?` / `:`
placeholders). -/
def countChar (c : Char) (s : String) : Nat := List.count c s.data

/-- A safe SQL identifier: alphanumeric or underscore characters only (in
particular no placeholder characters `?` and `:`). -/
def identOK (s : String) : Bool := s.data.all isNameChar && s ≠ ""

mutual

/-- Well-formedness of a condition tree for the cross-backend comparison:
every field is a safe identifier and every operator is one of the validated
operators (as pydantic construction guarantees). -/
def condWF : ConditionUnion → Bool
  | .cond c => identOK c.field && decide (c.op ∈ allowedOps)
  | .group _ fs => condWFList fs

/-- Pointwise `condWF`. -/
def condWFList : List ConditionUnion → Bool
  | [] => true
  | n :: ns => condWF n && condWFList ns

end

/-- Well-formedness of a whole query for the cross-backend comparison: safe
table name, well-formed filter, safe order-by fields. -/
def specWF (table : String) (q : QuerySpec) : Bool :=
  identOK table &&
  (match q.filter with | some f => condWF f | none => true) &&
  (match q.order_by with
   | some os => os.all (fun o => identOK o.field)
   | none => true)

/-- A row of the metadata `permission` table (`metadata.py` lines 62-74):
`id INTEGER PRIMARY KEY` plus the four flag columns; there is no UNIQUE
constraint on `(user_id, table_id)`. Flags are SQLite integers. -/
structure PermRow where
  id : Nat
  user_id : Int
  table_id : Int
  can_read : Int
  can_write : Int
  can_delete : Int
  is_owner : Int
deriving Repr, DecidableEq

/-- The rowid SQLite assigns to a fresh insert (one more than the largest). -/
def permNextId (s : List PermRow) : Nat :=
  (s.map (fun r => r.id)).foldr max 0 + 1

/-- SQLite integer truthiness as Python sees it. -/
def intTruthy (i : Int) : Bool := decide (i ≠ 0)

/-- The ambient session user (`app.storage.user`): id and role, or `none`
when nobody is logged in. -/
structure UserCtx where
  id : Int
  role : String
deriving Repr, DecidableEq

/-- Transcribes `has_permission` (`metadata.py` lines 175-206): no session
user fails closed; admin role short-circuits to true; otherwise the first
`(user_id, table_id)` permission row decides, absence means false; an
unknown permission kind falls through to the trailing `return False`. -/
def has_permission (user : Option UserCtx) (perms : List PermRow)
    (tableId : Int) (perm : String) : Bool :=
  match user with
  | none => false
  | some u =>
    if u.role = "admin" then true
    else
      match perms.find? (fun r => r.user_id == u.id && r.table_id == tableId) with
      | none => false
      | some r =>
        if perm = "read" then intTruthy r.can_read || intTruthy r.is_owner
        else if perm = "write" then intTruthy r.can_write || intTruthy r.is_owner
        else if perm = "delete" then intTruthy r.can_delete || intTruthy r.is_owner
        else if perm = "owner" then intTruthy r.is_owner
        else false

/-- Transcribes `grant_permission` (`permissions.py` lines 55-85). The flag
set is monotonic in the level; the write is `INSERT OR REPLACE INTO
permission (user_id, table_id, ...)`: since the transcribed schema has no
uniqueness constraint on those columns and `id` is auto-assigned, the
statement never conflicts and appends a fresh row. -/
def grant_permission (perms : List PermRow) (tableId userId : Int)
    (level : String) : Bool × List PermRow :=
  let can_read : Int := 1
  let can_write : Int := if level = "write" ∨ level = "delete" ∨ level = "owner" then 1 else 0
  let can_delete : Int := if level = "delete" ∨ level = "owner" then 1 else 0
  let is_owner : Int := if level = "owner" then 1 else 0
  (true, perms ++ [⟨permNextId perms, userId, tableId, can_read, can_write, can_delete, is_owner⟩])

/-- Transcribes `revoke_permission` (`permissions.py` lines 87-109): deletes
every `(user_id, table_id)` permission row. -/
def revoke_permission (perms : List PermRow) (tableId userId : Int) :
    Bool × List PermRow :=
  (true, perms.filter (fun r => !(r.user_id == userId && r.table_id == tableId)))

/-- A row of the metadata `row_lock` table (`metadata.py` lines 88-98):
`id INTEGER PRIMARY KEY`, no UNIQUE constraint on `(table_id, row_pk)`;
`locked_at` defaults to the current timestamp, modelled as a `Nat` clock. -/
structure LockRow where
  id : Nat
  table_id : Int
  row_pk : String
  locked_by : Int
  locked_at : Nat
deriving Repr, DecidableEq

/-- The rowid SQLite assigns to a fresh `row_lock` insert. -/
def lockNextId (s : List LockRow) : Nat :=
  (s.map (fun r => r.id)).foldr max 0 + 1

/-- The `WHERE table_id = ? AND row_pk = ?` test. -/
def lockMatches (tableId : Int) (rowPk : String) (r : LockRow) : Bool :=
  r.table_id == tableId && r.row_pk == rowPk

/-- Transcribes `lock_row` (`pages/table_view.py` lines 49-69): fetch the
first lock row for `(table_id, row_pk)`; if one exists and is held by
someone else, return false; otherwise `INSERT OR REPLACE INTO row_lock
(table_id, row_pk, locked_by)` — which, with no uniqueness constraint on
those columns in the transcribed schema, never conflicts and appends a fresh
row stamped `now`. Returns the Python return value and the new store. -/
def lock_row (s : List LockRow) (tableId : Int) (rowPk : String)
    (userId : Int) (now : Nat) : Bool × List LockRow :=
  match s.find? (lockMatches tableId rowPk) with
  | some r =>
    if r.locked_by ≠ userId then (false, s)
    else (true, s ++ [⟨lockNextId s, tableId, rowPk, userId, now⟩])
  | none => (true, s ++ [⟨lockNextId s, tableId, rowPk, userId, now⟩])

/-- Transcribes `unlock_row` (`pages/table_view.py` lines 71-78): `DELETE
FROM row_lock WHERE table_id = ? AND row_pk = ? AND locked_by = ?`. -/
def unlock_row (s : List LockRow) (tableId : Int) (rowPk : String)
    (userId : Int) : List LockRow :=
  s.filter (fun r => !(lockMatches tableId rowPk r && r.locked_by == userId))

/-- The active lock rows for one `(table_id, row_pk)`. -/
def lockMatching (s : List LockRow) (tableId : Int) (rowPk : String) :
    List LockRow :=
  s.filter (lockMatches tableId rowPk)

/-- No lock row exists for `(table_id, row_pk)`. -/
def Unlocked (s : List LockRow) (tableId : Int) (rowPk : String) : Prop :=
  lockMatching s tableId rowPk = []

/-- The row is locked and every lock row for it names `u` as holder. -/
def LockedBy (s : List LockRow) (tableId : Int) (rowPk : String) (u : Int) : Prop :=
  lockMatching s tableId rowPk ≠ [] ∧
    ∀ r ∈ lockMatching s tableId rowPk, r.locked_by = u

instance (s : List LockRow) (t : Int) (pk : String) (u : Int) :
    Decidable (LockedBy s t pk u) := by
  unfold LockedBy
  infer_instance

instance (s : List LockRow) (t : Int) (pk : String) :
    Decidable (Unlocked s t pk) := by
  unfold Unlocked
  infer_instance

/-- An external SQLite table: column names in order and data rows aligned to
them. -/
structure SqliteTable where
  columns : List String
  rows : List (List PyValue)
deriving Repr

/-- The column labels `cur.description` / `result.keys()` reports for
`SELECT * FROM <table>`: the table's columns. -/
def selectStarDescription (tbl : SqliteTable) : List String := tbl.columns

/-- The column names `PRAGMA table_info(<table>)` reports (`row[1]` of each
pragma row): the table's columns. -/
def pragmaTableInfoCols (tbl : SqliteTable) : List String := tbl.columns

/-- SQLite cross-type ordering rank: numbers sort before text; sequences
(which a driver would reject as bind values) after both. -/
def valRank : PyValue → Nat
  | .vInt _ => 0
  | .vStr _ => 1
  | .vList _ => 2

/-- SQLite `<` on stored values. -/
def valLt : PyValue → PyValue → Bool
  | .vInt a, .vInt b => a < b
  | .vStr a, .vStr b => a < b
  | a, b => valRank a < valRank b

mutual

/-- SQL evaluation of a condition tree against one row (the semantics of the
WHERE clause both backends build): leaf comparisons per operator, `in` as
membership, AND/OR over the children; an unknown column is an execution
error. -/
def evalCond (cols : List String) (row : List PyValue) :
    ConditionUnion → Except String Bool
  | .cond c =>
    match cols.indexOf? c.field with
    | none => .error ("no such column: " ++ c.field)
    | some i =>
      let x := row.getD i (.vInt 0)
      if c.op = "=" then .ok (PyValue.beq x c.value)
      else if c.op = "!=" then .ok (!PyValue.beq x c.value)
      else if c.op = "<" then .ok (valLt x c.value)
      else if c.op = "<=" then .ok (valLt x c.value || PyValue.beq x c.value)
      else if c.op = ">" then .ok (valLt c.value x)
      else if c.op = ">=" then .ok (valLt c.value x || PyValue.beq x c.value)
      else if c.op = "in" then
        match pyIter c.value with
        | .error e => .error e
        | .ok vs => .ok (vs.any (fun v => PyValue.beq x v))
      else .error ("unknown operator: " ++ c.op)
  | .group mode fs =>
    match evalCondList cols row fs with
    | .error e => .error e
    | .ok bs => .ok (if mode = "AND" then bs.all id else bs.any id)

/-- Evaluation of each child of a group. -/
def evalCondList (cols : List String) (row : List PyValue) :
    List ConditionUnion → Except String (List Bool)
  | [] => .ok []
  | n :: ns =>
    match evalCond cols row n with
    | .error e => .error e
    | .ok b =>
      match evalCondList cols row ns with
      | .error e => .error e
      | .ok bs => .ok (b :: bs)

end

/-- Keep the rows on which the filter evaluates to true, propagating
evaluation errors. -/
def filterRows (cols : List String) (f : ConditionUnion) :
    List (List PyValue) → Except String (List (List PyValue))
  | [] => .ok []
  | r :: rs =>
    match evalCond cols r f with
    | .error e => .error e
    | .ok b =>
      match filterRows cols f rs with
      | .error e => .error e
      | .ok kept => .ok (if b then r :: kept else kept)

/-- Lexicographic ORDER BY comparison over resolved key columns
(`(index, ascending)` pairs): strict less-than. -/
def rowOrderLt (keys : List (Nat × Bool)) (a b : List PyValue) : Bool :=
  match keys with
  | [] => false
  | (i, asc) :: rest =>
    let x := a.getD i (.vInt 0)
    let y := b.getD i (.vInt 0)
    if PyValue.beq x y then rowOrderLt rest a b
    else if asc then valLt x y else valLt y x

/-- Stable insertion into a sorted list: `x` goes before the first strictly
greater element. -/
def insertSorted (lt : List PyValue → List PyValue → Bool) (x : List PyValue) :
    List (List PyValue) → List (List PyValue)
  | [] => [x]
  | y :: ys => if lt x y then x :: y :: ys else y :: insertSorted lt x ys

/-- Stable insertion sort. -/
def sortRowsBy (lt : List PyValue → List PyValue → Bool) :
    List (List PyValue) → List (List PyValue)
  | [] => []
  | x :: xs => insertSorted lt x (sortRowsBy lt xs)

/-- ORDER BY semantics of the clause both backends append: resolve each key
column (an unknown one is an execution error), then sort stably. -/
def applyOrder (cols : List String) (q : QuerySpec)
    (rows : List (List PyValue)) : Except String (List (List PyValue)) :=
  match q.order_by with
  | some os =>
    if os.isEmpty then .ok rows
    else
      match os.mapM (fun o => (cols.indexOf? o.field).map (fun i => (i, o.ascending))) with
      | none => .error "no such order-by column"
      | some keys => .ok (sortRowsBy (rowOrderLt keys) rows)
  | none => .ok rows

/-- LIMIT/OFFSET semantics of the fragments the plugins append (each only
when its Python value is truthy): OFFSET drops, LIMIT then takes. -/
def applyLimitOffset (q : QuerySpec) (rows : List (List PyValue)) :
    List (List PyValue) :=
  let rows1 := if q.offset = 0 then rows else rows.drop q.offset.toNat
  match q.limit with
  | some l => if l = 0 then rows1 else rows1.take l.toNat
  | none => rows1

/-- Execution semantics of the `SELECT` statement both `read` methods build:
filter, order, then limit/offset. -/
def execSelect (tbl : SqliteTable) (q : QuerySpec) :
    Except String (List (List PyValue)) :=
  match (match q.filter with
         | some f => filterRows tbl.columns f tbl.rows
         | none => .ok tbl.rows) with
  | .error e => .error e
  | .ok kept =>
    match applyOrder tbl.columns q kept with
    | .error e => .error e
    | .ok ordered => .ok (applyLimitOffset q ordered)

/-- A pandas DataFrame as `read` returns it: column labels plus rows. -/
structure DataFrame where
  columns : List String
  rows : List (List PyValue)
deriving Repr

/-- Transcribes the result construction of `SQLiteDataSource.read`
(`sqlite_plugin.py` lines 80-89): rows present → DataFrame labelled from
`cur.description`; zero rows → `PRAGMA table_info` fallback for the labels. -/
def sqliteRead (tbl : SqliteTable) (q : QuerySpec) : Except String DataFrame :=
  match execSelect tbl q with
  | .error e => .error e
  | .ok rows =>
    if rows.isEmpty then .ok ⟨pragmaTableInfoCols tbl, []⟩
    else .ok ⟨selectStarDescription tbl, rows⟩

/-- Transcribes the result construction of `PostgreSQLDataSource.read`
(`postgresql_plugin.py` lines 77-84): `columns = result.keys()` is taken
before the branch and labels the DataFrame in both the rows and the
zero-rows case. -/
def pgRead (tbl : SqliteTable) (q : QuerySpec) : Except String DataFrame :=
  match execSelect tbl q with
  | .error e => .error e
  | .ok rows =>
    if rows.isEmpty then .ok ⟨selectStarDescription tbl, []⟩
    else .ok ⟨selectStarDescription tbl, rows⟩

/-- The update rowcount of the `UPDATE ... WHERE ...` the SQLite plugin
builds: how many rows match the filter. -/
def execUpdateCount (tbl : SqliteTable) (spec : UpdateSpec) : Except String Int :=
  match filterRows tbl.columns spec.filters tbl.rows with
  | .error e => .error e
  | .ok ms => .ok (ms.length : Int)

/-- The abstract methods of `BaseDatasource`
(`base_datasource.py` lines 119-175). -/
def baseDatasourceMethods : List String :=
  ["connect", "read", "insert", "update", "delete", "get_table_data",
   "update_cell", "insert_row", "delete_row", "get_schema", "test_connection"]

/-- The methods defined on `SQLiteDataSource` (`sqlite_plugin.py`). -/
def sqliteDataSourceMethods : List String :=
  ["get_config_class", "connect", "insert", "read", "_build_where", "update",
   "delete", "get_table_data", "update_cell", "insert_row", "delete_row",
   "get_schema", "test_connection"]

/-- The methods defined on `PostgreSQLDataSource` (`postgresql_plugin.py`),
a class with no base besides `object`. -/
def postgresqlDataSourceMethods : List String :=
  ["get_config_class", "connect", "insert", "read", "_build_where", "update",
   "delete"]

/-- The capability set spec §4.2/§6 requires of every backend plugin. -/
def datasourceCapabilitySet : List String :=
  ["connect", "read", "insert", "update", "delete", "get_schema",
   "test_connection"]

/-- Python attribute resolution for `self.create_config` on a
`SQLiteDataSource` instance: the class body, then `BaseDatasource`. -/
def sqliteResolvesAttr (attrName : String) : Bool :=
  attrName ∈ sqliteDataSourceMethods || attrName ∈ baseDatasourceMethods

/-- The module-level names in scope inside `sqlite_plugin.py` (imports plus
the classes it defines); `CreateSpec`, used by `insert_row`, is not among
them. -/
def sqlitePluginModuleNames : List String :=
  ["HookimplMarker", "sqlite3", "pd", "Field", "Any", "Dict", "List", "Tuple",
   "BaseDatasource", "QuerySpec", "InsertSpec", "UpdateSpec", "DeleteSpec",
   "ConditionUnion", "Condition", "BaseDataSourceConfig", "hookimpl",
   "SQLiteConnectionWrapper", "SQLiteConfig", "SQLiteDataSource"]

/-- The `table_config` dict the legacy wrappers receive; only the two keys
they read are modelled. -/
structure TableConfig where
  connection_string : Option String := none
  table_name : Option String := none
deriving Repr

/-- Python truthiness of `dict.get(...)` on a string-valued key. -/
def pyTruthyStr : Option String → Bool
  | none => false
  | some s => !(s == "")

/-- Transcribes `SQLiteDataSource.update_cell` (`sqlite_plugin.py` lines
151-176). After the key guard, the `try` block first evaluates
`self.create_config(...)`; if the attribute does not resolve the lookup
raises `AttributeError`, the `except Exception` clause prints and returns
False. Only if it resolved would the update run and `affected > 0` be
returned. -/
def sqliteUpdateCell (tbl : SqliteTable) (cfg : TableConfig)
    (pkCol pkValue column : String) (newValue : PyValue) : Bool :=
  if !(pyTruthyStr cfg.connection_string) || !(pyTruthyStr cfg.table_name) then false
  else if sqliteResolvesAttr "create_config" then
    match execUpdateCount tbl ⟨.cond ⟨pkCol, "=", .vStr pkValue⟩, [(column, newValue)]⟩ with
    | .ok n => decide (n > 0)
    | .error _ => false
  else false

/-- Transcribes `SQLiteDataSource.insert_row` (`sqlite_plugin.py` lines
178-200). The `try` block raises `AttributeError` at `self.create_config`;
were that defined, the next line's `CreateSpec` is not a module name and
would raise `NameError`; either way `except Exception` returns False. -/
def sqliteInsertRow (cfg : TableConfig) : Bool :=
  if !(pyTruthyStr cfg.connection_string) || !(pyTruthyStr cfg.table_name) then false
  else if sqliteResolvesAttr "create_config" &&
      decide ("CreateSpec" ∈ sqlitePluginModuleNames) then
    true
  else false

/-- Transcribes `SQLiteDataSource.delete_row` (`sqlite_plugin.py` lines
202-226): same structure as `update_cell` with a `DeleteSpec`. -/
def sqliteDeleteRow (tbl : SqliteTable) (cfg : TableConfig)
    (pkCol pkValue : String) : Bool :=
  if !(pyTruthyStr cfg.connection_string) || !(pyTruthyStr cfg.table_name) then false
  else if sqliteResolvesAttr "create_config" then
    match filterRows tbl.columns (.cond ⟨pkCol, "=", .vStr pkValue⟩) tbl.rows with
    | .ok ms => decide (ms.length > 0)
    | .error _ => false
  else false

/-- Transcribes `SQLiteDataSource.get_schema` (`sqlite_plugin.py` lines
228-256): key guard returns `[]`; the `try` block raises at
`self.create_config` and the handler returns `[]`; only if it resolved would
the `PRAGMA table_info` column list be returned (entries carry name, type,
notnull, default and pk in the source; the embedding keeps the names). -/
def sqliteGetSchema (tbl : SqliteTable) (cfg : TableConfig) : List String :=
  if !(pyTruthyStr cfg.connection_string) || !(pyTruthyStr cfg.table_name) then []
  else if sqliteResolvesAttr "create_config" then pragmaTableInfoCols tbl
  else []

/-- Transcribes `SQLiteDataSource.test_connection` (`sqlite_plugin.py` lines
258-273): empty or missing connection string returns False; otherwise the
`try` block raises at `self.create_config` and `except` returns False; only
if it resolved would the connect round-trip return True. -/
def sqliteTestConnection (cfg : TableConfig) : Bool :=
  let cs := cfg.connection_string.getD ""
  if cs == "" then false
  else if sqliteResolvesAttr "create_config" then true
  else false

/-- Specification of the dict entries the `in` loop of the named-placeholder
builder creates: key `base_idx` bound to the idx-th value. -/
def inKeys (base : String) (i : Nat) : List PyValue → List (String × PyValue)
  | [] => []
  | v :: rest => (base ++ "_" ++ natStr i, v) :: inKeys base (i + 1) rest

mutual

/-- Reference rendering of a condition tree directly to fully-substituted SQL
text: the common denotation both backends' clause builders are compared
against (same traversal order, parenthesization and connectors as both
`_build_where` implementations, with each bound value rendered in place). -/
def refCond : ConditionUnion → Except String String
  | .cond c =>
    if c.op = "in" then
      match pyIter c.value with
      | .error e => .error e
      | .ok vs => .ok (c.field ++ " IN (" ++ sepJoin ", " (vs.map renderVal) ++ ")")
    else .ok (c.field ++ " " ++ c.op ++ " " ++ renderVal c.value)
  | .group mode fs =>
    match refCondList fs with
    | .error e => .error e
    | .ok rs => .ok (sepJoin (if mode = "AND" then " AND " else " OR ") rs)

/-- Reference rendering of a group's children, each parenthesized. -/
def refCondList : List ConditionUnion → Except String (List String)
  | [] => .ok []
  | n :: ns =>
    match refCond n with
    | .error e => .error e
    | .ok r =>
      match refCondList ns with
      | .error e => .error e
      | .ok rs => .ok (("(" ++ r ++ ")") :: rs)

end

/-- True when a character list does not begin with a name character — the
text following a `:name` placeholder must not extend the name. -/
def headOKB : List Char → Bool
  | [] => true
  | c :: _ => !isNameChar c

/-- A valid parameter-name prefix as the named builder generates them: the
initial `"p"` extended with decimal child indices — nonempty, alphanumeric
(in particular underscore-free). -/
def pfxOK (p : String) : Bool := !(p == "") && p.data.all (fun c => c.isAlphanum)

/-- Shape of a parameter key stored at index `j` of the params dict: a
scalar condition processed when the dict had `s` entries stores `P_s` at
index `j = s`; an `in` condition processed when the dict had `s` entries
stores `P_s_(j-s)` at index `j ≥ s`. -/
def entryKeyOK (key : String) (j : Nat) : Prop :=
  ∃ P s, pfxOK P = true ∧
    ((key = P ++ "_" ++ natStr s ∧ j = s) ∨
     (s ≤ j ∧ key = (P ++ "_" ++ natStr s) ++ "_" ++ natStr (j - s)))

/-- Invariant of the params dict threaded through the named builder: every
entry's key has the generated shape for its index. -/
def dictOK (d : Dict) : Prop :=
  ∀ j, (h : j < d.length) → entryKeyOK (d.get ⟨j, h⟩).1 j

-- ===== more definitions are inserted above this line =====

-- ===== theorems =====

theorem digitChar_toNat {n : Nat} (h : n < 10) : (digitChar n).toNat = 48 + n := by
  interval_cases n <;> decide

theorem digitChar_isDigit {n : Nat} (h : n < 10) : (digitChar n).isDigit = true := by
  interval_cases n <;> decide

theorem digitsVal_concat (xs : List Char) (c : Char) :
    digitsVal (xs ++ [c]) = digitsVal xs * 10 + (c.toNat - 48) := by
  simp [digitsVal, List.foldl_append]

theorem digitsVal_natChars (n : Nat) : digitsVal (natChars n) = n := by
  induction n using Nat.strong_induction_on with
  | _ n ih =>
    rw [natChars]
    split
    · next h =>
      simp [digitsVal, List.foldl, digitChar_toNat h]
    · next h =>
      rw [digitsVal_concat, ih (n / 10) (Nat.div_lt_self (by omega) (by omega)),
        digitChar_toNat (Nat.mod_lt _ (by omega))]
      omega

theorem natChars_injective : Function.Injective natChars := by
  intro a b h
  have := digitsVal_natChars a
  rw [h, digitsVal_natChars] at this
  omega

theorem natStr_injective : Function.Injective natStr := by
  intro a b h
  exact natChars_injective (congrArg String.data h)

theorem natChars_isDigit (n : Nat) : ∀ c ∈ natChars n, c.isDigit = true := by
  induction n using Nat.strong_induction_on with
  | _ n ih =>
    rw [natChars]
    split
    · next h =>
      intro c hc
      simp only [List.mem_singleton] at hc
      exact hc ▸ digitChar_isDigit h
    · next h =>
      intro c hc
      rw [List.mem_append, List.mem_singleton] at hc
      rcases hc with hc | hc
      · exact ih (n / 10) (Nat.div_lt_self (by omega) (by omega)) c hc
      · exact hc ▸ digitChar_isDigit (Nat.mod_lt _ (by omega))

theorem natChars_ne_nil (n : Nat) : natChars n ≠ [] := by
  rw [natChars]
  split <;> simp

theorem isDigit_toNat_bounds {c : Char} (h : c.isDigit = true) :
    48 ≤ c.toNat ∧ c.toNat ≤ 57 := by
  simp only [Char.isDigit, Bool.and_eq_true, decide_eq_true_eq] at h
  obtain ⟨h1, h2⟩ := h
  exact ⟨h1, h2⟩

theorem isDigit_isAlphanum {c : Char} (h : c.isDigit = true) : c.isAlphanum = true := by
  simp [Char.isAlphanum, h]

theorem isDigit_ne {c d : Char} (h : c.isDigit = true) (hd : d.isDigit = false) :
    c ≠ d := by
  intro he
  rw [he] at h
  rw [h] at hd
  exact Bool.noConfusion hd

/-- C5: spec construction validates structurally and fails fast: a
`ConditionList` with missing or empty `filters` never constructs, a singleton
always does (for a valid mode); a `Condition` with an operator outside the
allowed set never constructs; a `QuerySpec` with `limit < 1` or `offset < 0`
never constructs, while `limit = 1, offset = 0` does. -/
theorem spec_validation_fails_fast (mode f op : String) (v : PyValue)
    (c : ConditionUnion) (limit : Option Int) (l offset : Int)
    (ob : Option (List OrderItem)) (flt : Option ConditionUnion) :
    (mkConditionList mode none).isOk = false ∧
    (mkConditionList mode (some [])).isOk = false ∧
    ((mode = "AND" ∨ mode = "OR") → (mkConditionList mode (some [c])).isOk = true) ∧
    (op ∉ allowedOps → (mkCondition f op v).isOk = false) ∧
    (l < 1 → (mkQuerySpec (some l) offset ob flt).isOk = false) ∧
    (offset < 0 → (mkQuerySpec limit offset ob flt).isOk = false) ∧
    (mkQuerySpec (some 1) 0 ob flt).isOk = true := by
  refine ⟨rfl, rfl, ?_, ?_, ?_, ?_, ?_⟩
  · intro h
    simp [mkConditionList, h, Except.isOk, Except.toBool]
  · intro h
    simp [mkCondition, h, Except.isOk, Except.toBool]
  · intro h
    simp [mkQuerySpec, if_pos h, Except.isOk, Except.toBool]
  · intro h
    cases limit with
    | none => simp [mkQuerySpec, if_pos h, Except.isOk, Except.toBool]
    | some l2 =>
      simp only [mkQuerySpec]
      split
      · rfl
      · simp [if_pos h, Except.isOk, Except.toBool]
  · simp [mkQuerySpec, Except.isOk, Except.toBool]

theorem spec_validation_fails_fast_witness :
    (mkConditionList "AND" (some [.cond ⟨"age", ">", .vInt 25⟩])).isOk = true ∧
    (mkCondition "age" "~" (.vInt 1)).isOk = false ∧
    (mkQuerySpec (some 0) 0 none none).isOk = false ∧
    (mkQuerySpec (some 10) (-1) none none).isOk = false :=
  ⟨(spec_validation_fails_fast "AND" "f" "=" (.vInt 0) (.cond ⟨"age", ">", .vInt 25⟩)
      none 0 0 none none).2.2.1 (Or.inl rfl),
   (spec_validation_fails_fast "AND" "age" "~" (.vInt 1) (.cond ⟨"age", ">", .vInt 25⟩)
      none 0 0 none none).2.2.2.1 (by decide),
   (spec_validation_fails_fast "AND" "f" "=" (.vInt 0) (.cond ⟨"age", ">", .vInt 25⟩)
      none 0 0 none none).2.2.2.2.1 (by decide),
   (spec_validation_fails_fast "AND" "f" "=" (.vInt 0) (.cond ⟨"age", ">", .vInt 25⟩)
      (some 10) 0 (-1) none none).2.2.2.2.2.1 (by decide)⟩

/-- C6 counterexample: contrary to the claim, `Condition` construction does
not constrain `value`: `op = 'in'` with a scalar int, `op = 'in'` with an
empty list, and a scalar operator with a list all construct successfully. -/
theorem condition_value_unvalidated_cex :
    (mkCondition "city" "in" (.vInt 5)).isOk = true ∧
    (mkCondition "city" "in" (.vList [])).isOk = true ∧
    (mkCondition "age" "=" (.vList [.vInt 1, .vInt 2])).isOk = true := by
  refine ⟨rfl, rfl, rfl⟩

/-- C6 amended: `Condition` construction validates only the operator: it
succeeds exactly when `op` is in the allowed set, for every value (scalar,
list or empty list alike); the sequence/scalar invariant on `value` is not
enforced at spec-construction time. -/
theorem condition_validates_op_only (f op : String) (v : PyValue) :
    (mkCondition f op v).isOk = true ↔ op ∈ allowedOps := by
  unfold mkCondition
  split
  · next h => simp [h, Except.isOk, Except.toBool]
  · next h => simp [h, Except.isOk, Except.toBool]

theorem condition_validates_op_only_witness :
    (mkCondition "city" "<" (.vList [.vInt 3])).isOk = true :=
  (condition_validates_op_only "city" "<" (.vList [.vInt 3])).mpr (by decide)

/-- C2: `has_permission` returns true for every queried kind whenever the
session user's role is admin, even with no permission rows; for a logged-in
non-admin it returns false when no `(user, table)` row exists; when the
matching row has `is_owner` set it returns true for read, write, delete and
owner; and `can_write` / `can_delete` do not imply each other. -/
theorem has_permission_contract (perms : List PermRow) (tableId uid : Int)
    (perm role : String) (r : PermRow) :
    (perm ∈ ["read", "write", "delete", "owner"] →
      has_permission (some ⟨uid, "admin"⟩) perms tableId perm = true) ∧
    (role ≠ "admin" →
      (∀ p ∈ perms, ¬(p.user_id = uid ∧ p.table_id = tableId)) →
      has_permission (some ⟨uid, role⟩) perms tableId perm = false) ∧
    (role ≠ "admin" →
      perms.find? (fun p => p.user_id == uid && p.table_id == tableId) = some r →
      intTruthy r.is_owner = true →
      perm ∈ ["read", "write", "delete", "owner"] →
      has_permission (some ⟨uid, role⟩) perms tableId perm = true) ∧
    (has_permission (some ⟨7, "user"⟩) [⟨1, 7, 3, 1, 1, 0, 0⟩] 3 "write" = true ∧
      has_permission (some ⟨7, "user"⟩) [⟨1, 7, 3, 1, 1, 0, 0⟩] 3 "delete" = false) ∧
    (has_permission (some ⟨7, "user"⟩) [⟨1, 7, 3, 1, 0, 1, 0⟩] 3 "delete" = true ∧
      has_permission (some ⟨7, "user"⟩) [⟨1, 7, 3, 1, 0, 1, 0⟩] 3 "write" = false) := by
  refine ⟨?_, ?_, ?_, by decide, by decide⟩
  · intro _
    simp [has_permission]
  · intro hrole hnone
    have hfind : perms.find? (fun p => p.user_id == uid && p.table_id == tableId) = none := by
      rw [List.find?_eq_none]
      intro p hp
      have := hnone p hp
      simp only [Bool.and_eq_true, beq_iff_eq]
      intro hcontra
      exact this ⟨hcontra.1, hcontra.2⟩
    simp [has_permission, hrole, hfind]
  · intro hrole hfind howner hperm
    simp only [has_permission, if_neg hrole, hfind]
    simp only [List.mem_cons, List.not_mem_nil, or_false] at hperm
    rcases hperm with h | h | h | h <;> simp [h, howner]

theorem has_permission_contract_witness :
    has_permission (some ⟨42, "admin"⟩) [] 9 "owner" = true ∧
    has_permission (some ⟨42, "user"⟩) [⟨1, 5, 9, 1, 1, 1, 1⟩] 9 "read" = false ∧
    has_permission (some ⟨42, "user"⟩) [⟨1, 42, 9, 0, 0, 0, 1⟩] 9 "delete" = true :=
  ⟨(has_permission_contract [] 9 42 "owner" "admin" ⟨0, 0, 0, 0, 0, 0, 0⟩).1 (by decide),
   (has_permission_contract [⟨1, 5, 9, 1, 1, 1, 1⟩] 9 42 "read" "user"
      ⟨0, 0, 0, 0, 0, 0, 0⟩).2.1 (by decide) (by decide),
   (has_permission_contract [⟨1, 42, 9, 0, 0, 0, 1⟩] 9 42 "delete" "user"
      ⟨1, 42, 9, 0, 0, 0, 1⟩).2.2.1 (by decide) (by decide) (by decide) (by decide)⟩

theorem find?_eq_head?_filter {α : Type} (p : α → Bool) (s : List α) :
    s.find? p = (s.filter p).head? := by
  induction s with
  | nil => rfl
  | cons a s ih =>
    cases h : p a with
    | true =>
      rw [List.find?_cons_of_pos _ h, List.filter_cons_of_pos h]
      rfl
    | false =>
      rw [List.find?_cons_of_neg _ (by simp [h]), List.filter_cons_of_neg (by simp [h])]
      exact ih

theorem lockMatches_self (i : Nat) (t : Int) (pk : String) (u : Int) (now : Nat) :
    lockMatches t pk ⟨i, t, pk, u, now⟩ = true := by
  simp [lockMatches]

theorem lockMatching_append (s1 s2 : List LockRow) (t : Int) (pk : String) :
    lockMatching (s1 ++ s2) t pk = lockMatching s1 t pk ++ lockMatching s2 t pk :=
  List.filter_append _ _

theorem lockMatching_single_self (i : Nat) (t : Int) (pk : String) (u : Int)
    (now : Nat) :
    lockMatching [⟨i, t, pk, u, now⟩] t pk = [⟨i, t, pk, u, now⟩] := by
  simp [lockMatching, List.filter_cons, lockMatches_self]

theorem unlocked_find? {s : List LockRow} {t : Int} {pk : String}
    (h : Unlocked s t pk) : s.find? (lockMatches t pk) = none := by
  rw [find?_eq_head?_filter]
  unfold Unlocked lockMatching at h
  rw [h]
  rfl

theorem lockedBy_find? {s : List LockRow} {t : Int} {pk : String} {u : Int}
    (h : LockedBy s t pk u) :
    ∃ r0, s.find? (lockMatches t pk) = some r0 ∧ r0.locked_by = u := by
  obtain ⟨hne, hall⟩ := h
  rw [find?_eq_head?_filter]
  unfold lockMatching at hne hall
  cases hm : s.filter (lockMatches t pk) with
  | nil => exact absurd hm hne
  | cons r0 rest =>
    refine ⟨r0, rfl, hall r0 ?_⟩
    rw [hm]
    exact List.mem_cons_self r0 rest

theorem mem_lockMatching {s : List LockRow} {t : Int} {pk : String} {r : LockRow}
    (hr : r ∈ s) (hm : lockMatches t pk r = true) : r ∈ lockMatching s t pk :=
  List.mem_filter.mpr ⟨hr, hm⟩

/-- C3: the row-lock state machine: from Unlocked, `lock_row` by U succeeds
and moves to Locked(by=U); from Locked(by=U), `lock_row` by V ≠ U returns
false and changes nothing; `lock_row` by U again returns true, stays
Locked(by=U) and stamps a lock row with the fresh timestamp; `unlock_row` by
U moves to Unlocked while `unlock_row` by V leaves the lock in place; after U
unlocks, `lock_row` by V succeeds. -/
theorem row_lock_state_machine (s : List LockRow) (t : Int) (pk : String)
    (u v : Int) (now : Nat) :
    (Unlocked s t pk →
      (lock_row s t pk u now).1 = true ∧
      LockedBy (lock_row s t pk u now).2 t pk u) ∧
    (LockedBy s t pk u → v ≠ u →
      lock_row s t pk v now = (false, s)) ∧
    (LockedBy s t pk u →
      (lock_row s t pk u now).1 = true ∧
      LockedBy (lock_row s t pk u now).2 t pk u ∧
      ∃ r ∈ lockMatching (lock_row s t pk u now).2 t pk,
        r.locked_by = u ∧ r.locked_at = now) ∧
    (LockedBy s t pk u → Unlocked (unlock_row s t pk u) t pk) ∧
    (LockedBy s t pk u → v ≠ u → LockedBy (unlock_row s t pk v) t pk u) ∧
    (LockedBy s t pk u →
      (lock_row (unlock_row s t pk u) t pk v now).1 = true) := by
  have hunlock : LockedBy s t pk u → Unlocked (unlock_row s t pk u) t pk := by
    intro ⟨_, hall⟩
    unfold Unlocked lockMatching unlock_row
    rw [List.filter_eq_nil_iff]
    intro r hr
    rw [List.mem_filter] at hr
    intro hmatch
    have hu : r.locked_by = u := hall r (List.mem_filter.mpr ⟨hr.1, hmatch⟩)
    have := hr.2
    rw [hmatch, hu] at this
    simp at this
  refine ⟨?_, ?_, ?_, hunlock, ?_, ?_⟩
  · intro h
    have hred : lock_row s t pk u now =
        (true, s ++ [⟨lockNextId s, t, pk, u, now⟩]) := by
      simp only [lock_row, unlocked_find? h]
    rw [hred]
    refine ⟨rfl, ?_⟩
    unfold LockedBy
    rw [lockMatching_append]
    unfold Unlocked at h
    rw [h, lockMatching_single_self]
    constructor
    · simp
    · intro r hr
      simp only [List.nil_append, List.mem_singleton] at hr
      rw [hr]
  · intro h hvu
    obtain ⟨r0, hfind, hby⟩ := lockedBy_find? h
    have hne : r0.locked_by ≠ v := by
      rw [hby]
      exact Ne.symm hvu
    simp only [lock_row, hfind, if_pos hne]
  · intro h
    obtain ⟨r0, hfind, hby⟩ := lockedBy_find? h
    have hne : ¬(r0.locked_by ≠ u) := by
      rw [hby]
      exact fun hh => hh rfl
    have hred : lock_row s t pk u now =
        (true, s ++ [⟨lockNextId s, t, pk, u, now⟩]) := by
      simp only [lock_row, hfind, if_neg hne]
    rw [hred]
    refine ⟨rfl, ?_, ?_⟩
    · unfold LockedBy
      rw [lockMatching_append, lockMatching_single_self]
      constructor
      · simp
      · intro r hr
        rw [List.mem_append] at hr
        rcases hr with hr | hr
        · exact h.2 r hr
        · simp only [List.mem_singleton] at hr
          rw [hr]
    · refine ⟨⟨lockNextId s, t, pk, u, now⟩, ?_, rfl, rfl⟩
      rw [lockMatching_append, lockMatching_single_self, List.mem_append]
      right
      simp
  · intro h hvu
    obtain ⟨hne, hall⟩ := h
    have hkeep : unlock_row s t pk v = s := by
      unfold unlock_row
      rw [List.filter_eq_self]
      intro r hr
      cases hm : lockMatches t pk r with
      | false => simp [hm]
      | true =>
        have h2 : r.locked_by = u := hall r (mem_lockMatching hr hm)
        simp only [hm, h2, Bool.true_and, Bool.not_eq_true', beq_eq_false_iff_ne, ne_eq]
        exact Ne.symm hvu
    rw [hkeep]
    exact ⟨hne, hall⟩
  · intro h
    simp only [lock_row, unlocked_find? (hunlock h)]

theorem row_lock_state_machine_witness :
    (lock_row [] 1 "5" 7 0).1 = true ∧
    LockedBy (lock_row [] 1 "5" 7 0).2 1 "5" 7 ∧
    lock_row [⟨1, 1, "5", 7, 0⟩] 1 "5" 9 1 = (false, [⟨1, 1, "5", 7, 0⟩]) ∧
    Unlocked (unlock_row [⟨1, 1, "5", 7, 0⟩] 1 "5" 7) 1 "5" ∧
    LockedBy (unlock_row [⟨1, 1, "5", 7, 0⟩] 1 "5" 9) 1 "5" 7 ∧
    (lock_row (unlock_row [⟨1, 1, "5", 7, 0⟩] 1 "5" 7) 1 "5" 9 2).1 = true :=
  ⟨(row_lock_state_machine [] 1 "5" 7 9 0).1 (by decide) |>.1,
   (row_lock_state_machine [] 1 "5" 7 9 0).1 (by decide) |>.2,
   (row_lock_state_machine [⟨1, 1, "5", 7, 0⟩] 1 "5" 7 9 1).2.1 (by decide) (by decide),
   (row_lock_state_machine [⟨1, 1, "5", 7, 0⟩] 1 "5" 7 9 1).2.2.2.1 (by decide),
   (row_lock_state_machine [⟨1, 1, "5", 7, 0⟩] 1 "5" 7 9 1).2.2.2.2.1 (by decide) (by decide),
   (row_lock_state_machine [⟨1, 1, "5", 7, 0⟩] 1 "5" 7 9 2).2.2.2.2.2 (by decide)⟩

/-- C4 is violated by the code: starting from an empty lock store, locking
the same `(table_id, row_pk)` twice as the same user leaves two active lock
rows — the `INSERT OR REPLACE` has no uniqueness constraint on
`(table_id, row_pk)` to conflict with, so the re-lock appends instead of
refreshing. Both calls report success. -/
theorem row_lock_duplicate_rows :
    (lock_row (lock_row [] 1 "1" 7 0).2 1 "1" 7 1).1 = true ∧
    (lock_row (lock_row [] 1 "1" 7 0).2 1 "1" 7 1).2.length = 2 ∧
    (lockMatching (lock_row (lock_row [] 1 "1" 7 0).2 1 "1" 7 1).2 1 "1").length = 2 := by
  decide

/-- C7 is violated by the code: granting to the same `(user, table)` twice
leaves two permission rows (the `INSERT OR REPLACE` never conflicts, since
the `permission` table has no uniqueness constraint on `(user_id,
table_id)`), and the permission lookup then reads the *first* (oldest) row,
so after `read` then `write` the user still lacks write; `revoke_permission`
does delete every row. -/
theorem permission_grant_duplicate_rows :
    ((grant_permission (grant_permission [] 1 2 "read").2 1 2 "write").2).length = 2 ∧
    has_permission (some ⟨2, "user"⟩)
      ((grant_permission (grant_permission [] 1 2 "read").2 1 2 "write").2) 1 "write" = false ∧
    (revoke_permission
      ((grant_permission (grant_permission [] 1 2 "read").2 1 2 "write").2) 1 2).2 = [] := by
  decide

/-- C9: when the built query matches zero rows, both `read` implementations
still return a DataFrame labelled with the table's correct columns — SQLite
via the `PRAGMA table_info` fallback, PostgreSQL via the `result.keys()`
taken before the branch. -/
theorem read_zero_rows_column_labels (tbl : SqliteTable) (q : QuerySpec) :
    execSelect tbl q = .ok [] →
    sqliteRead tbl q = .ok ⟨tbl.columns, []⟩ ∧
    pgRead tbl q = .ok ⟨tbl.columns, []⟩ := by
  intro h
  constructor
  · simp [sqliteRead, h, pragmaTableInfoCols]
  · simp [pgRead, h, selectStarDescription]

theorem read_zero_rows_column_labels_witness :
    sqliteRead ⟨["id", "age"], [[.vInt 1, .vInt 25]]⟩
      ⟨none, 0, none, some (.cond ⟨"age", ">", .vInt 30⟩)⟩ =
      .ok ⟨["id", "age"], []⟩ ∧
    pgRead ⟨["id", "age"], [[.vInt 1, .vInt 25]]⟩
      ⟨none, 0, none, some (.cond ⟨"age", ">", .vInt 30⟩)⟩ =
      .ok ⟨["id", "age"], []⟩ :=
  read_zero_rows_column_labels ⟨["id", "age"], [[.vInt 1, .vInt 25]]⟩
    ⟨none, 0, none, some (.cond ⟨"age", ">", .vInt 30⟩)⟩ (by rfl)

/-- C10: `self.create_config` resolves nowhere in the `SQLiteDataSource`
class hierarchy, so with the config keys present each legacy wrapper's `try`
block raises `AttributeError` at that call and the `except` handler converts
the failure: `update_cell`, `insert_row`, `delete_row` and `test_connection`
return False and `get_schema` returns the empty list; no data operation is
reached. -/
theorem legacy_wrappers_always_fail (tbl : SqliteTable) (cfg ccfg : TableConfig)
    (pkCol pkValue column : String) (v : PyValue) :
    sqliteResolvesAttr "create_config" = false ∧
    (pyTruthyStr cfg.connection_string = true → pyTruthyStr cfg.table_name = true →
      sqliteUpdateCell tbl cfg pkCol pkValue column v = false ∧
      sqliteInsertRow cfg = false ∧
      sqliteDeleteRow tbl cfg pkCol pkValue = false ∧
      sqliteGetSchema tbl cfg = []) ∧
    (ccfg.connection_string.getD "" ≠ "" → sqliteTestConnection ccfg = false) := by
  have hres : sqliteResolvesAttr "create_config" = false := by decide
  refine ⟨hres, ?_, ?_⟩
  · intro h1 h2
    refine ⟨?_, ?_, ?_, ?_⟩ <;>
      simp [sqliteUpdateCell, sqliteInsertRow, sqliteDeleteRow, sqliteGetSchema,
        h1, h2, hres]
  · intro h
    simp [sqliteTestConnection, hres, h]

theorem legacy_wrappers_always_fail_witness :
    sqliteUpdateCell ⟨["id"], [[.vInt 1]]⟩
      ⟨some "test.db", some "t"⟩ "id" "1" "id" (.vInt 2) = false ∧
    sqliteInsertRow (⟨some "test.db", some "t"⟩ : TableConfig) = false ∧
    sqliteDeleteRow ⟨["id"], [[.vInt 1]]⟩ ⟨some "test.db", some "t"⟩ "id" "1" = false ∧
    sqliteGetSchema ⟨["id"], [[.vInt 1]]⟩ ⟨some "test.db", some "t"⟩ = [] ∧
    sqliteTestConnection (⟨some "test.db", none⟩ : TableConfig) = false := by
  have h := legacy_wrappers_always_fail ⟨["id"], [[.vInt 1]]⟩
    ⟨some "test.db", some "t"⟩ ⟨some "test.db", none⟩ "id" "1" "id" (.vInt 2)
  obtain ⟨-, hmain, htest⟩ := h
  obtain ⟨h1, h2, h3, h4⟩ := hmain (by decide) (by decide)
  exact ⟨h1, h2, h3, h4, htest (by decide)⟩

theorem isNameChar_of_isDigit {c : Char} (h : c.isDigit = true) :
    isNameChar c = true := by
  simp [isNameChar, isDigit_isAlphanum h]

theorem count_natChars_eq_zero {c : Char} (hc : c.isDigit = false) (n : Nat) :
    List.count c (natChars n) = 0 := by
  rw [List.count_eq_zero]
  intro hmem
  have := natChars_isDigit n c hmem
  rw [this] at hc
  exact Bool.noConfusion hc

theorem countChar_append (c : Char) (a b : String) :
    countChar c (a ++ b) = countChar c a + countChar c b := by
  simp [countChar, String.data_append, List.count_append]

theorem countChar_natStr_eq_zero {c : Char} (hc : c.isDigit = false) (n : Nat) :
    countChar c (natStr n) = 0 :=
  count_natChars_eq_zero hc n

theorem countChar_sepJoin {c : Char} {sep : String}
    (h : countChar c sep = 0) (parts : List String) :
    countChar c (sepJoin sep parts) = (parts.map (countChar c)).sum := by
  induction parts with
  | nil => simp [sepJoin, countChar]
  | cons x xs ih =>
    cases xs with
    | nil => simp [sepJoin]
    | cons y rest =>
      have hstep : sepJoin sep (x :: y :: rest) = x ++ sep ++ sepJoin sep (y :: rest) := rfl
      rw [hstep, countChar_append, countChar_append, h, ih]
      simp [List.map_cons, List.sum_cons]

theorem sum_of_all_eq_one {l : List String} {g : String → Nat}
    (h : ∀ x ∈ l, g x = 1) : (l.map g).sum = l.length := by
  induction l with
  | nil => rfl
  | cons x xs ih =>
    simp only [List.map_cons, List.sum_cons, List.length_cons,
      h x (List.mem_cons_self x xs)]
    rw [ih (fun y hy => h y (List.mem_cons_of_mem x hy))]
    omega

theorem countChar_identOK_eq_zero {c : Char} (hc : isNameChar c = false)
    {f : String} (h : identOK f = true) : countChar c f = 0 := by
  unfold countChar
  rw [List.count_eq_zero]
  intro hmem
  unfold identOK at h
  rw [Bool.and_eq_true] at h
  have := List.all_eq_true.mp h.1 c hmem
  rw [this] at hc
  exact Bool.noConfusion hc

theorem natStr_suffix_inj (base : String) {i j : Nat}
    (h : base ++ "_" ++ natStr i = base ++ "_" ++ natStr j) : i = j := by
  have hd := congrArg String.data h
  simp only [String.data_append] at hd
  have h2 := List.append_cancel_left hd
  exact natChars_injective h2

theorem inKeys_length (base : String) (vs : List PyValue) :
    ∀ i, (inKeys base i vs).length = vs.length := by
  induction vs with
  | nil => intro i; rfl
  | cons v rest ih =>
    intro i
    simp [inKeys, ih (i + 1)]

theorem inKeys_snd (base : String) (vs : List PyValue) :
    ∀ i, (inKeys base i vs).map Prod.snd = vs := by
  induction vs with
  | nil => intro i; rfl
  | cons v rest ih =>
    intro i
    simp [inKeys, ih (i + 1)]

theorem inKeys_shape (base : String) (vs : List PyValue) :
    ∀ i, ∀ e ∈ inKeys base i vs, ∃ j, i ≤ j ∧ e.1 = base ++ "_" ++ natStr j := by
  induction vs with
  | nil => intro i e he; exact absurd he (List.not_mem_nil e)
  | cons v rest ih =>
    intro i e he
    rw [inKeys, List.mem_cons] at he
    rcases he with he | he
    · exact ⟨i, Nat.le_refl i, by rw [he]⟩
    · obtain ⟨j, hij, hej⟩ := ih (i + 1) e he
      exact ⟨j, by omega, hej⟩

theorem dictInsert_fresh {d : Dict} {k : String} (v : PyValue)
    (h : ∀ e ∈ d, e.1 ≠ k) : dictInsert d k v = d ++ [(k, v)] := by
  have hany : List.any d (fun e => e.1 == k) = false := by
    rw [List.any_eq_false]
    intro e he
    simpa using h e he
  unfold dictInsert
  rw [hany]
  simp

theorem pgInLoop_eq (base : String) (vs : List PyValue) :
    ∀ (i : Nat) (d : Dict),
    (∀ e ∈ d, ∀ j, i ≤ j → e.1 ≠ base ++ "_" ++ natStr j) →
    pgInLoop base vs i d =
      ((inKeys base i vs).map (fun e => ":" ++ e.1), d ++ inKeys base i vs) := by
  induction vs with
  | nil =>
    intro i d _
    simp [pgInLoop, inKeys]
  | cons v rest ih =>
    intro i d hf
    rw [pgInLoop]
    have hins : dictInsert d (base ++ "_" ++ natStr i) v =
        d ++ [(base ++ "_" ++ natStr i, v)] :=
      dictInsert_fresh v (fun e he => hf e he i (Nat.le_refl i))
    rw [hins]
    have hf2 : ∀ e ∈ d ++ [(base ++ "_" ++ natStr i, v)], ∀ j, i + 1 ≤ j →
        e.1 ≠ base ++ "_" ++ natStr j := by
      intro e he j hij
      rw [List.mem_append, List.mem_singleton] at he
      rcases he with he | he
      · exact hf e he j (by omega)
      · rw [he]
        intro hcontra
        have := natStr_suffix_inj base hcontra
        omega
    rw [ih (i + 1) (d ++ [(base ++ "_" ++ natStr i, v)]) hf2]
    simp [inKeys, List.append_assoc]

/-- C8: on a Condition with `op = 'in'` and a value list of length N, the
SQLite `_build_where` emits exactly N `?` placeholders and binds exactly the
N list values positionally, and the PostgreSQL `_build_where` emits exactly
N `:name` placeholders and a params dict of exactly N entries bound to the
list's values in order. -/
theorem build_where_in_placeholders (f : String) (vs : List PyValue)
    (h : identOK f = true) :
    (∃ cl, sqliteBuildWhere (.cond ⟨f, "in", .vList vs⟩) = .ok (cl, vs) ∧
      countChar '?' cl = vs.length) ∧
    (∃ cl d, pgBuildWhere (.cond ⟨f, "in", .vList vs⟩) [] "p" = .ok (cl, d) ∧
      countChar ':' cl = vs.length ∧ d.length = vs.length ∧
      d.map Prod.snd = vs) := by
  constructor
  · refine ⟨f ++ " IN (" ++ sepJoin ", " (vs.map (fun _ => "?")) ++ ")", ?_, ?_⟩
    · simp [sqliteBuildWhere, pyIter]
    · rw [countChar_append, countChar_append, countChar_append]
      rw [countChar_identOK_eq_zero (by decide) h]
      rw [countChar_sepJoin (by decide)]
      rw [sum_of_all_eq_one (fun x hx => by
        rcases List.mem_map.mp hx with ⟨v, _, hv⟩
        rw [← hv]
        rfl)]
      have e1 : countChar '?' " IN (" = 0 := by decide
      have e2 : countChar '?' ")" = 0 := by decide
      rw [e1, e2, List.length_map]
      omega
  · have hloop := pgInLoop_eq ("p" ++ "_" ++ natStr 0) vs 0 []
      (fun e he => absurd he (List.not_mem_nil e))
    have hbase : countChar ':' ("p" ++ "_" ++ natStr 0) = 0 := by
      rw [countChar_append, countChar_append, countChar_natStr_eq_zero (by decide) 0]
      decide
    refine ⟨f ++ " IN (" ++
      sepJoin ", " ((inKeys ("p" ++ "_" ++ natStr 0) 0 vs).map (fun e => ":" ++ e.1)) ++ ")",
      inKeys ("p" ++ "_" ++ natStr 0) 0 vs, ?_, ?_, ?_, ?_⟩
    · have hred : pgBuildWhere (.cond ⟨f, "in", .vList vs⟩) [] "p" =
          .ok (f ++ " IN (" ++
            sepJoin ", " (pgInLoop ("p" ++ "_" ++ natStr 0) vs 0 []).1 ++ ")",
            (pgInLoop ("p" ++ "_" ++ natStr 0) vs 0 []).2) := rfl
      rw [hred, hloop]
      rfl
    · rw [countChar_append, countChar_append, countChar_append]
      rw [countChar_identOK_eq_zero (by decide) h]
      rw [countChar_sepJoin (by decide)]
      rw [sum_of_all_eq_one (fun x hx => by
        rcases List.mem_map.mp hx with ⟨e, he, hv⟩
        obtain ⟨j, _, hej⟩ := inKeys_shape ("p" ++ "_" ++ natStr 0) vs 0 e he
        have hkey : countChar ':' (("p" ++ "_" ++ natStr 0) ++ "_" ++ natStr j) = 0 := by
          rw [countChar_append, countChar_append, hbase,
            countChar_natStr_eq_zero (by decide) j]
          decide
        rw [← hv, hej, countChar_append, hkey]
        decide)]
      have e1 : countChar ':' " IN (" = 0 := by decide
      have e2 : countChar ':' ")" = 0 := by decide
      rw [e1, e2, List.length_map, inKeys_length]
      omega
    · rw [inKeys_length]
    · rw [inKeys_snd]

theorem build_where_in_placeholders_witness :
    (∃ cl, sqliteBuildWhere (.cond ⟨"city", "in", .vList [.vStr "NYC", .vStr "LA"]⟩) =
      .ok (cl, [.vStr "NYC", .vStr "LA"]) ∧ countChar '?' cl = 2) ∧
    (∃ cl d, pgBuildWhere (.cond ⟨"city", "in", .vList [.vStr "NYC", .vStr "LA"]⟩) [] "p" =
      .ok (cl, d) ∧ countChar ':' cl = 2 ∧ d.length = 2 ∧
      d.map Prod.snd = [.vStr "NYC", .vStr "LA"]) :=
  build_where_in_placeholders "city" [.vStr "NYC", .vStr "LA"] (by decide)

theorem substPosChars_append (a b : List Char) :
    ∀ ps, substPosChars (a ++ b) ps =
      ((substPosChars a ps).1 ++ (substPosChars b (substPosChars a ps).2).1,
       (substPosChars b (substPosChars a ps).2).2) := by
  induction a with
  | nil => intro ps; simp [substPosChars]
  | cons c rest ih =>
    intro ps
    simp only [List.cons_append, substPosChars]
    by_cases hc : c = '?'
    · rw [if_pos hc, if_pos hc]
      cases ps with
      | nil => simp [ih []]
      | cons p ps2 => simp [ih ps2, List.append_assoc]
    · rw [if_neg hc, if_neg hc]
      simp [ih ps]

theorem substPosChars_lit (a : List Char) (h : '?' ∉ a) :
    ∀ ps, substPosChars a ps = (a, ps) := by
  induction a with
  | nil => intro ps; rfl
  | cons c rest ih =>
    intro ps
    have hc : ¬(c = '?') := fun he => h (he ▸ List.mem_cons_self c rest)
    simp only [substPosChars, if_neg hc]
    rw [ih (fun hm => h (List.mem_cons_of_mem c hm)) ps]

theorem scan_name_split (name suffix : List Char)
    (hn : ∀ c ∈ name, isNameChar c = true) (hs : headOKB suffix = true) :
    (name ++ suffix).takeWhile isNameChar = name ∧
    (name ++ suffix).dropWhile isNameChar = suffix := by
  induction name with
  | nil =>
    cases suffix with
    | nil => exact ⟨rfl, rfl⟩
    | cons c rest =>
      unfold headOKB at hs
      rw [Bool.not_eq_true'] at hs
      simp [List.takeWhile, List.dropWhile, hs]
  | cons c rest ih =>
    have hc : isNameChar c = true := hn c (List.mem_cons_self c rest)
    have ihr := ih (fun x hx => hn x (List.mem_cons_of_mem c hx))
    simp only [List.cons_append, List.takeWhile, List.dropWhile, hc]
    refine ⟨?_, ?_⟩
    · simp only [List.append_eq]
      rw [ihr.1]
    · simp only [List.append_eq]
      rw [ihr.2]

theorem substNamedChars_lit (D : Dict) (a : List Char) (h : ':' ∉ a) :
    ∀ rest, substNamedChars D (a ++ rest) = a ++ substNamedChars D rest := by
  induction a with
  | nil => intro rest; rfl
  | cons c a2 ih =>
    intro rest
    have hc : ¬(c = ':') := fun he => h (he ▸ List.mem_cons_self c a2)
    rw [List.cons_append, substNamedChars]
    rw [if_neg hc, ih (fun hm => h (List.mem_cons_of_mem c hm)) rest]
    rfl

theorem substNamedChars_name (D : Dict) (name suffix : List Char) (v : PyValue)
    (hn : ∀ c ∈ name, isNameChar c = true) (hs : headOKB suffix = true)
    (hlk : dictLookup D (String.mk name) = some v) :
    substNamedChars D (':' :: (name ++ suffix)) =
      (renderVal v).data ++ substNamedChars D suffix := by
  rw [substNamedChars, if_pos rfl]
  rw [(scan_name_split name suffix hn hs).1, (scan_name_split name suffix hn hs).2, hlk]

theorem append_underscore_inj :
    ∀ {a1 : List Char} {b1 : List Char} {a2 b2 : List Char},
    '_' ∉ a1 → '_' ∉ a2 →
    a1 ++ '_' :: b1 = a2 ++ '_' :: b2 → a1 = a2 ∧ b1 = b2 := by
  intro a1
  induction a1 with
  | nil =>
    intro b1 a2 b2 _ h2 h
    cases a2 with
    | nil => simpa using h
    | cons c a2' =>
      rw [List.nil_append, List.cons_append] at h
      injection h with hc _
      exact absurd (hc ▸ List.mem_cons_self c a2') h2
  | cons c a1' ih =>
    intro b1 a2 b2 h1 h2 h
    cases a2 with
    | nil =>
      rw [List.nil_append, List.cons_append] at h
      injection h with hc _
      exact absurd (hc ▸ List.mem_cons_self c a1') h1
    | cons c2 a2' =>
      rw [List.cons_append, List.cons_append] at h
      injection h with hc hrest
      obtain ⟨ha, hb⟩ := ih (fun hm => h1 (List.mem_cons_of_mem c hm))
        (fun hm => h2 (List.mem_cons_of_mem c2 hm)) hrest
      exact ⟨by rw [hc, ha], hb⟩

theorem alphanum_ne_underscore {c : Char} (h : c.isAlphanum = true) : c ≠ '_' := by
  intro he
  rw [he] at h
  exact absurd h (by decide)

theorem pfx_no_underscore {P : String} (h : pfxOK P = true) : '_' ∉ P.data := by
  intro hm
  unfold pfxOK at h
  rw [Bool.and_eq_true] at h
  exact alphanum_ne_underscore (List.all_eq_true.mp h.2 '_' hm) rfl

theorem natChars_no_underscore (n : Nat) : '_' ∉ natChars n := by
  intro hm
  have := natChars_isDigit n '_' hm
  exact absurd this (by decide)

theorem scalar_key_data {P : String} (s : Nat) :
    (P ++ "_" ++ natStr s).data = P.data ++ '_' :: natChars s := by
  simp [String.data_append, natStr]

theorem in_key_data {P : String} (s i : Nat) :
    ((P ++ "_" ++ natStr s) ++ "_" ++ natStr i).data =
      P.data ++ '_' :: (natChars s ++ '_' :: natChars i) := by
  simp [String.data_append, natStr]

theorem scalar_scalar_key_inj {P1 P2 : String} {s1 s2 : Nat}
    (h1 : '_' ∉ P1.data) (h2 : '_' ∉ P2.data)
    (h : P1 ++ "_" ++ natStr s1 = P2 ++ "_" ++ natStr s2) : P1 = P2 ∧ s1 = s2 := by
  have hd := congrArg String.data h
  rw [scalar_key_data, scalar_key_data] at hd
  obtain ⟨hp, hs⟩ := append_underscore_inj h1 h2 hd
  exact ⟨String.ext hp, natChars_injective hs⟩

theorem scalar_in_key_ne {P1 P2 : String} {s1 s2 i : Nat}
    (h1 : '_' ∉ P1.data) (h2 : '_' ∉ P2.data) :
    P1 ++ "_" ++ natStr s1 ≠ (P2 ++ "_" ++ natStr s2) ++ "_" ++ natStr i := by
  intro h
  have hd := congrArg String.data h
  rw [scalar_key_data, in_key_data] at hd
  obtain ⟨-, hs⟩ := append_underscore_inj h1 h2 hd
  have : '_' ∈ natChars s1 := by
    rw [hs]
    exact List.mem_append_right _ (List.mem_cons_self _ _)
  exact natChars_no_underscore s1 this

theorem in_in_key_inj {P1 P2 : String} {s1 s2 i1 i2 : Nat}
    (h1 : '_' ∉ P1.data) (h2 : '_' ∉ P2.data)
    (h : (P1 ++ "_" ++ natStr s1) ++ "_" ++ natStr i1 =
         (P2 ++ "_" ++ natStr s2) ++ "_" ++ natStr i2) :
    P1 = P2 ∧ s1 = s2 ∧ i1 = i2 := by
  have hd := congrArg String.data h
  rw [in_key_data, in_key_data] at hd
  obtain ⟨hp, hrest⟩ := append_underscore_inj h1 h2 hd
  obtain ⟨hs, hi⟩ := append_underscore_inj (natChars_no_underscore s1)
    (natChars_no_underscore s2) hrest
  exact ⟨String.ext hp, natChars_injective hs, natChars_injective hi⟩

theorem entry_ne_fresh_scalar {key : String} {j : Nat} (hk : entryKeyOK key j)
    {P : String} (hp : pfxOK P = true) {m : Nat} (hm : j < m) :
    key ≠ P ++ "_" ++ natStr m := by
  obtain ⟨Q, s, hq, hor⟩ := hk
  intro he
  rcases hor with ⟨hkey, hjs⟩ | ⟨hsj, hkey⟩
  · rw [hkey] at he
    obtain ⟨-, hsm⟩ := scalar_scalar_key_inj (pfx_no_underscore hq)
      (pfx_no_underscore hp) he
    omega
  · rw [hkey] at he
    exact scalar_in_key_ne (pfx_no_underscore hp) (pfx_no_underscore hq) he.symm

theorem entry_ne_fresh_in {key : String} {j : Nat} (hk : entryKeyOK key j)
    {P : String} (hp : pfxOK P = true) {m i : Nat} (hm : j < m) :
    key ≠ (P ++ "_" ++ natStr m) ++ "_" ++ natStr i := by
  obtain ⟨Q, s, hq, hor⟩ := hk
  intro he
  rcases hor with ⟨hkey, hjs⟩ | ⟨hsj, hkey⟩
  · rw [hkey] at he
    exact scalar_in_key_ne (pfx_no_underscore hq) (pfx_no_underscore hp) he
  · rw [hkey] at he
    obtain ⟨-, hsm, -⟩ := in_in_key_inj (pfx_no_underscore hq)
      (pfx_no_underscore hp) he
    omega

theorem dictOK_nil : dictOK [] := by
  intro j h
  exact absurd h (by simp)

theorem dict_entry_shape {d : Dict} (hd : dictOK d) {e : String × PyValue}
    (he : e ∈ d) : ∃ j, j < d.length ∧ entryKeyOK e.1 j := by
  obtain ⟨n, hget⟩ := List.mem_iff_get.mp he
  refine ⟨n.1, n.2, ?_⟩
  have := hd n.1 n.2
  rw [show (⟨n.1, n.2⟩ : Fin d.length) = n from rfl, hget] at this
  exact this

theorem dict_fresh_scalar {d : Dict} (hd : dictOK d) {P : String}
    (hp : pfxOK P = true) : ∀ e ∈ d, e.1 ≠ P ++ "_" ++ natStr d.length := by
  intro e he
  obtain ⟨j, hj, hk⟩ := dict_entry_shape hd he
  exact entry_ne_fresh_scalar hk hp hj

theorem dict_fresh_in {d : Dict} (hd : dictOK d) {P : String}
    (hp : pfxOK P = true) (i : Nat) :
    ∀ e ∈ d, e.1 ≠ (P ++ "_" ++ natStr d.length) ++ "_" ++ natStr i := by
  intro e he
  obtain ⟨j, hj, hk⟩ := dict_entry_shape hd he
  exact entry_ne_fresh_in hk hp hj

theorem inKeys_get_key (base : String) :
    ∀ (vs : List PyValue) (i k : Nat) (h : k < (inKeys base i vs).length),
    ((inKeys base i vs).get ⟨k, h⟩).1 = base ++ "_" ++ natStr (i + k) := by
  intro vs
  induction vs with
  | nil =>
    intro i k h
    exact absurd h (by simp [inKeys])
  | cons v rest ih =>
    intro i k h
    cases k with
    | zero => simp [inKeys]
    | succ k2 =>
      have h2 : k2 < (inKeys base (i + 1) rest).length := by
        rw [inKeys] at h
        simpa using h
      have : ((inKeys base i (v :: rest)).get ⟨k2 + 1, h⟩) =
          ((inKeys base (i + 1) rest).get ⟨k2, h2⟩) := rfl
      rw [this, ih (i + 1) k2 h2]
      have : i + 1 + k2 = i + (k2 + 1) := by omega
      rw [this]

theorem dictOK_append_scalar {d : Dict} (hd : dictOK d) {P : String}
    (hp : pfxOK P = true) (v : PyValue) :
    dictOK (d ++ [(P ++ "_" ++ natStr d.length, v)]) := by
  intro j hj
  by_cases hlt : j < d.length
  · rw [List.get_append j hlt]
    exact hd j hlt
  · have hlen : j < d.length + 1 := by simpa using hj
    have hj2 : j = d.length := by omega
    subst hj2
    have hget : (d ++ [(P ++ "_" ++ natStr d.length, v)]).get ⟨d.length, hj⟩ =
        (P ++ "_" ++ natStr d.length, v) :=
      List.get_of_append rfl rfl
    rw [hget]
    exact ⟨P, d.length, hp, Or.inl ⟨rfl, rfl⟩⟩

theorem dictOK_append_inKeys {d : Dict} (hd : dictOK d) {P : String}
    (hp : pfxOK P = true) (vs : List PyValue) :
    dictOK (d ++ inKeys (P ++ "_" ++ natStr d.length) 0 vs) := by
  intro j hj
  by_cases hlt : j < d.length
  · rw [List.get_append j hlt]
    exact hd j hlt
  · have hle : d.length ≤ j := by omega
    have hk : j - d.length < (inKeys (P ++ "_" ++ natStr d.length) 0 vs).length := by
      rw [List.length_append] at hj
      omega
    rw [@List.get_append_right _ _ d (inKeys (P ++ "_" ++ natStr d.length) 0 vs) hle hj hk]
    rw [inKeys_get_key]
    refine ⟨P, d.length, hp, Or.inr ⟨hle, ?_⟩⟩
    rw [Nat.zero_add]

theorem inKeys_pairwise (base : String) :
    ∀ (vs : List PyValue) (i : Nat),
    (inKeys base i vs).Pairwise (fun a b => a.1 ≠ b.1) := by
  intro vs
  induction vs with
  | nil => intro i; exact List.Pairwise.nil
  | cons v rest ih =>
    intro i
    rw [inKeys]
    refine List.Pairwise.cons ?_ (ih (i + 1))
    intro e he
    obtain ⟨j, hij, hej⟩ := inKeys_shape base rest (i + 1) e he
    rw [hej]
    intro hc
    have := natStr_suffix_inj base hc
    omega

theorem find?_append_of_none {α : Type} {p : α → Bool} {l1 : List α}
    (h : l1.find? p = none) (l2 : List α) :
    (l1 ++ l2).find? p = l2.find? p := by
  induction l1 with
  | nil => rfl
  | cons a l ih =>
    cases hpa : p a with
    | true =>
      rw [List.find?_cons_of_pos _ hpa] at h
      exact Option.noConfusion h
    | false =>
      rw [List.find?_cons_of_neg _ (by simp [hpa])] at h
      rw [List.cons_append, List.find?_cons_of_neg _ (by simp [hpa])]
      exact ih h

theorem find?_block {block : Dict} {e : String × PyValue} :
    e ∈ block → block.Pairwise (fun a b => a.1 ≠ b.1) → ∀ (Δ : Dict),
    (block ++ Δ).find? (fun x => x.1 == e.1) = some e := by
  induction block with
  | nil => intro he; exact absurd he (List.not_mem_nil e)
  | cons b rest ih =>
    intro he hdist Δ
    rcases List.mem_cons.mp he with he1 | he2
    · rw [List.cons_append, List.find?_cons_of_pos _ (by rw [he1]; exact beq_self_eq_true b.1)]
      rw [he1]
    · have hbne : b.1 ≠ e.1 := (List.pairwise_cons.mp hdist).1 e he2
      rw [List.cons_append, List.find?_cons_of_neg _ (by simpa using hbne)]
      exact ih he2 (List.pairwise_cons.mp hdist).2 Δ

theorem dictLookup_block {d block Δ : Dict} {e : String × PyValue}
    (he : e ∈ block) (hfresh : ∀ x ∈ d, x.1 ≠ e.1)
    (hdist : block.Pairwise (fun a b => a.1 ≠ b.1)) :
    dictLookup (d ++ (block ++ Δ)) e.1 = some e.2 := by
  unfold dictLookup
  have hdnone : d.find? (fun x => x.1 == e.1) = none := by
    rw [List.find?_eq_none]
    intro x hx
    simpa using hfresh x hx
  rw [find?_append_of_none hdnone, find?_block he hdist Δ]
  rfl

mutual

theorem cuInd {P : ConditionUnion → Prop} {Q : List ConditionUnion → Prop}
    (hcond : ∀ c, P (.cond c))
    (hgroup : ∀ m fs, Q fs → P (.group m fs))
    (hnil : Q [])
    (hcons : ∀ n ns, P n → Q ns → Q (n :: ns)) :
    ∀ node, P node
  | .cond c => hcond c
  | .group m fs => hgroup m fs (cuIndList hcond hgroup hnil hcons fs)

theorem cuIndList {P : ConditionUnion → Prop} {Q : List ConditionUnion → Prop}
    (hcond : ∀ c, P (.cond c))
    (hgroup : ∀ m fs, Q fs → P (.group m fs))
    (hnil : Q [])
    (hcons : ∀ n ns, P n → Q ns → Q (n :: ns)) :
    ∀ fs, Q fs
  | [] => hnil
  | n :: ns => hcons n ns (cuInd hcond hgroup hnil hcons n)
      (cuIndList hcond hgroup hnil hcons ns)

end

theorem identOK_no_placeholder {f : String} (h : identOK f = true) :
    '?' ∉ f.data ∧ ':' ∉ f.data := by
  unfold identOK at h
  rw [Bool.and_eq_true] at h
  constructor <;> intro hm <;>
    exact absurd (List.all_eq_true.mp h.1 _ hm) (by decide)

theorem allowedOps_no_placeholder :
    ∀ op ∈ allowedOps, '?' ∉ op.data ∧ ':' ∉ op.data := by
  decide

theorem scalar_key_nameChars {P : String}
    (hp : ∀ c ∈ P.data, isNameChar c = true) (s : Nat) :
    ∀ c ∈ (P ++ "_" ++ natStr s).data, isNameChar c = true := by
  rw [scalar_key_data]
  intro c hc
  rw [List.mem_append] at hc
  rcases hc with hc | hc
  · exact hp c hc
  · rw [List.mem_cons] at hc
    rcases hc with hc | hc
    · rw [hc]; decide
    · exact isNameChar_of_isDigit (natChars_isDigit s c hc)

theorem pfx_nameChars {P : String} (hp : pfxOK P = true) :
    ∀ c ∈ P.data, isNameChar c = true := by
  intro c hc
  unfold pfxOK at hp
  rw [Bool.and_eq_true] at hp
  have := List.all_eq_true.mp hp.2 c hc
  simp [isNameChar, this]

theorem substPosChars_lit_append (lit rest : List Char) (ps : List PyValue)
    (h : '?' ∉ lit) :
    substPosChars (lit ++ rest) ps =
      (lit ++ (substPosChars rest ps).1, (substPosChars rest ps).2) := by
  rw [substPosChars_append, substPosChars_lit lit h]

theorem substPosChars_qhead (tail : List Char) (v : PyValue) (ps : List PyValue) :
    substPosChars ('?' :: tail) (v :: ps) =
      ((renderVal v).data ++ (substPosChars tail ps).1, (substPosChars tail ps).2) := by
  simp [substPosChars]

theorem substPos_qmarks : ∀ (vs rest : List PyValue),
    substPosChars (sepJoin ", " (vs.map (fun _ => "?"))).data (vs ++ rest) =
      ((sepJoin ", " (vs.map renderVal)).data, rest) := by
  intro vs
  induction vs with
  | nil => intro rest; rfl
  | cons v vs2 ih =>
    intro rest
    cases vs2 with
    | nil =>
      show substPosChars ['?'] (v :: rest) = ((renderVal v).data, rest)
      simp [substPosChars]
    | cons v2 vs3 =>
      have hstep : (sepJoin ", " ((v :: v2 :: vs3).map (fun _ => "?"))).data =
          '?' :: (", ".data ++ (sepJoin ", " ((v2 :: vs3).map (fun _ => "?"))).data) := by
        show ("?" ++ ", " ++ sepJoin ", " ((v2 :: vs3).map (fun _ => "?"))).data = _
        rw [String.data_append, String.data_append]
        rfl
      have hstep2 : (sepJoin ", " ((v :: v2 :: vs3).map renderVal)).data =
          (renderVal v).data ++ (", ".data ++ (sepJoin ", " ((v2 :: vs3).map renderVal)).data) := by
        show (renderVal v ++ ", " ++ sepJoin ", " ((v2 :: vs3).map renderVal)).data = _
        rw [String.data_append, String.data_append]
        rw [List.append_assoc]
      rw [hstep, hstep2]
      rw [show (v :: v2 :: vs3) ++ rest = v :: ((v2 :: vs3) ++ rest) from rfl]
      rw [substPosChars_qhead (", ".data ++
        (sepJoin ", " ((v2 :: vs3).map (fun _ => "?"))).data) v ((v2 :: vs3) ++ rest)]
      rw [substPosChars_lit_append _ _ _ (by decide)]
      rw [ih rest]

theorem substNamed_inPhs (D : Dict) (base : String)
    (hb : ∀ c ∈ base.data, isNameChar c = true) :
    ∀ (vs : List PyValue) (i : Nat),
    (∀ e ∈ inKeys base i vs, dictLookup D e.1 = some e.2) →
    ∀ suffix, headOKB suffix = true →
    substNamedChars D
      ((sepJoin ", " ((inKeys base i vs).map (fun e => ":" ++ e.1))).data ++ suffix) =
      (sepJoin ", " (vs.map renderVal)).data ++ substNamedChars D suffix := by
  intro vs
  induction vs with
  | nil => intro i _ suffix _; rfl
  | cons v vs2 ih =>
    intro i hlk suffix hsfx
    have hkey : ∀ c ∈ (base ++ "_" ++ natStr i).data, isNameChar c = true :=
      scalar_key_nameChars hb i
    have hlk0 : dictLookup D (base ++ "_" ++ natStr i) = some v :=
      hlk (base ++ "_" ++ natStr i, v) (by rw [inKeys]; exact List.mem_cons_self _ _)
    cases vs2 with
    | nil =>
      show substNamedChars D ((":" ++ (base ++ "_" ++ natStr i)).data ++ suffix) = _
      rw [show (":" ++ (base ++ "_" ++ natStr i)).data =
        ':' :: (base ++ "_" ++ natStr i).data from by rw [String.data_append]; rfl]
      rw [List.cons_append,
        substNamedChars_name D _ suffix v hkey hsfx (by
          rw [show String.mk (base ++ "_" ++ natStr i).data = base ++ "_" ++ natStr i from rfl]
          exact hlk0)]
      rfl
    | cons v2 vs3 =>
      have hstep : (sepJoin ", "
          ((inKeys base i (v :: v2 :: vs3)).map (fun e => ":" ++ e.1))).data =
          ':' :: ((base ++ "_" ++ natStr i).data ++ (", ".data ++
            (sepJoin ", " ((inKeys base (i + 1) (v2 :: vs3)).map (fun e => ":" ++ e.1))).data)) := by
        show ((":" ++ (base ++ "_" ++ natStr i)) ++ ", " ++
          sepJoin ", " ((inKeys base (i + 1) (v2 :: vs3)).map (fun e => ":" ++ e.1))).data = _
        rw [String.data_append, String.data_append, String.data_append]
        simp [List.append_assoc]
      have hstep2 : (sepJoin ", " ((v :: v2 :: vs3).map renderVal)).data =
          (renderVal v).data ++ (", ".data ++ (sepJoin ", " ((v2 :: vs3).map renderVal)).data) := by
        show (renderVal v ++ ", " ++ sepJoin ", " ((v2 :: vs3).map renderVal)).data = _
        rw [String.data_append, String.data_append]
        rw [List.append_assoc]
      rw [hstep, hstep2]
      rw [List.cons_append, List.append_assoc]
      rw [substNamedChars_name D _ _ v hkey (by rfl) (by
        rw [show String.mk (base ++ "_" ++ natStr i).data = base ++ "_" ++ natStr i from rfl]
        exact hlk0)]
      rw [List.append_assoc]
      rw [substNamedChars_lit D ", ".data (by decide)]
      rw [ih (i + 1) (fun e he => hlk e (by rw [inKeys]; exact List.mem_cons_of_mem _ he))
        suffix hsfx]
      simp [List.append_assoc]

theorem substPosChars_cons_lit (c : Char) (hc : ¬ c = '?') (rest : List Char)
    (ps : List PyValue) :
    substPosChars (c :: rest) ps =
      (c :: (substPosChars rest ps).1, (substPosChars rest ps).2) := by
  simp [substPosChars, hc]

theorem substPos_qmarks_cont (vs : List PyValue) (suffix : List Char)
    (ps2 : List PyValue) :
    substPosChars ((sepJoin ", " (vs.map (fun _ => "?"))).data ++ suffix) (vs ++ ps2) =
      ((sepJoin ", " (vs.map renderVal)).data ++ (substPosChars suffix ps2).1,
       (substPosChars suffix ps2).2) := by
  rw [substPosChars_append, substPos_qmarks vs ps2]

theorem paren_data (s : String) : ("(" ++ s ++ ")").data = '(' :: (s.data ++ [')']) := by
  rw [String.data_append, String.data_append]
  rfl

theorem connector_no_qmark (mode : String) :
    '?' ∉ (if mode = "AND" then " AND " else " OR " : String).data := by
  split <;> decide

theorem connector_no_colon (mode : String) :
    ':' ∉ (if mode = "AND" then " AND " else " OR " : String).data := by
  split <;> decide

theorem sqliteSubst : ∀ node : ConditionUnion, condWF node = true →
    ((∃ e, sqliteBuildWhere node = .error e ∧ refCond node = .error e) ∨
     (∃ cl ps r, sqliteBuildWhere node = .ok (cl, ps) ∧ refCond node = .ok r ∧
       ∀ suffix ps2, substPosChars (cl.data ++ suffix) (ps ++ ps2) =
         (r.data ++ (substPosChars suffix ps2).1, (substPosChars suffix ps2).2))) := by
  refine cuInd
    (Q := fun fs => condWFList fs = true →
      ((∃ e, sqliteBuildWhereList fs = .error e ∧ refCondList fs = .error e) ∨
       (∃ cls ps rs, sqliteBuildWhereList fs = .ok (cls, ps) ∧
         refCondList fs = .ok rs ∧ cls.length = rs.length ∧ (cls = [] → ps = []) ∧
         ∀ sep : String, '?' ∉ sep.data →
         ∀ suffix ps2,
           substPosChars ((sepJoin sep cls).data ++ suffix) (ps ++ ps2) =
             ((sepJoin sep rs).data ++ (substPosChars suffix ps2).1,
              (substPosChars suffix ps2).2))))
    ?_ ?_ ?_ ?_
  · -- leaf condition
    intro c hwf
    unfold condWF at hwf
    rw [Bool.and_eq_true, decide_eq_true_eq] at hwf
    obtain ⟨hfield, hop⟩ := hwf
    have hfq : '?' ∉ c.field.data := (identOK_no_placeholder hfield).1
    by_cases hin : c.op = "in"
    · cases hiter : pyIter c.value with
      | error e =>
        left
        exact ⟨e, by simp [sqliteBuildWhere, hin, hiter], by simp [refCond, hin, hiter]⟩
      | ok vs =>
        right
        refine ⟨c.field ++ " IN (" ++ sepJoin ", " (vs.map (fun _ => "?")) ++ ")", vs,
          c.field ++ " IN (" ++ sepJoin ", " (vs.map renderVal) ++ ")",
          by simp [sqliteBuildWhere, hin, hiter],
          by simp [refCond, hin, hiter], ?_⟩
        intro suffix ps2
        have hcl : (c.field ++ " IN (" ++ sepJoin ", " (vs.map (fun _ => "?")) ++ ")").data ++ suffix =
            c.field.data ++ (" IN (".data ++
              ((sepJoin ", " (vs.map (fun _ => "?"))).data ++ ([')'] ++ suffix))) := by
          simp [String.data_append, List.append_assoc]
        rw [hcl]
        rw [substPosChars_lit_append _ _ _ hfq]
        rw [substPosChars_lit_append _ _ _ (by decide)]
        rw [substPos_qmarks_cont]
        rw [substPosChars_lit_append _ _ _ (by decide)]
        refine Prod.ext ?_ rfl
        simp [String.data_append, List.append_assoc]
    · right
      refine ⟨c.field ++ " " ++ c.op ++ " ?", [c.value],
        c.field ++ " " ++ c.op ++ " " ++ renderVal c.value,
        by simp [sqliteBuildWhere, hin],
        by simp [refCond, hin], ?_⟩
      intro suffix ps2
      have hcl : (c.field ++ " " ++ c.op ++ " ?").data ++ suffix =
          c.field.data ++ ([' '] ++ (c.op.data ++ ([' '] ++ ('?' :: suffix)))) := by
        simp [String.data_append, List.append_assoc]
      rw [hcl]
      rw [show ([c.value] : List PyValue) ++ ps2 = c.value :: ps2 from rfl]
      rw [substPosChars_lit_append _ _ _ hfq]
      rw [substPosChars_lit_append _ _ _ (by decide)]
      rw [substPosChars_lit_append _ _ _ ((allowedOps_no_placeholder c.op hop).1)]
      rw [substPosChars_lit_append _ _ _ (by decide)]
      rw [substPosChars_qhead]
      refine Prod.ext ?_ rfl
      simp [String.data_append, List.append_assoc]
  · -- group
    intro m fs hq hwf
    unfold condWF at hwf
    rcases hq hwf with ⟨e, hb, hr⟩ | ⟨cls, ps, rs, hb, hr, _, _, hsub⟩
    · left
      exact ⟨e, by simp [sqliteBuildWhere, hb], by simp [refCond, hr]⟩
    · right
      refine ⟨sepJoin (if m = "AND" then " AND " else " OR ") cls, ps,
        sepJoin (if m = "AND" then " AND " else " OR ") rs,
        by simp [sqliteBuildWhere, hb],
        by simp [refCond, hr], ?_⟩
      exact hsub _ (connector_no_qmark m)
  · -- empty list
    intro _
    right
    refine ⟨[], [], [], rfl, rfl, rfl, fun _ => rfl, ?_⟩
    intro sep _ suffix ps2
    rfl
  · -- cons
    intro n ns hp hq hwf
    unfold condWFList at hwf
    rw [Bool.and_eq_true] at hwf
    obtain ⟨hwn, hwns⟩ := hwf
    rcases hp hwn with ⟨e, hb, hr⟩ | ⟨cl, ps, r, hb, hr, hsub⟩
    · left
      exact ⟨e, by simp [sqliteBuildWhereList, hb], by simp [refCondList, hr]⟩
    · rcases hq hwns with ⟨e, hb2, hr2⟩ | ⟨cls2, ps2, rs2, hb2, hr2, hlen, hnilps, hsub2⟩
      · left
        exact ⟨e, by simp [sqliteBuildWhereList, hb, hb2],
          by simp [refCondList, hr, hr2]⟩
      · right
        refine ⟨("(" ++ cl ++ ")") :: cls2, ps ++ ps2, ("(" ++ r ++ ")") :: rs2,
          by simp [sqliteBuildWhereList, hb, hb2],
          by simp [refCondList, hr, hr2],
          by simp [hlen], by intro hc; exact absurd hc (by simp), ?_⟩
        intro sep hsep suffix ps3
        cases cls2 with
        | nil =>
          have hrs2 : rs2 = [] := List.length_eq_zero.mp (by simpa using hlen.symm)
          have hps2 : ps2 = [] := hnilps rfl
          subst hrs2
          subst hps2
          show substPosChars (("(" ++ cl ++ ")").data ++ suffix) ((ps ++ []) ++ ps3) = _
          rw [List.append_nil, paren_data]
          rw [show ('(' :: (cl.data ++ [')'])) ++ suffix =
            '(' :: (cl.data ++ ([')'] ++ suffix)) from by simp [List.append_assoc]]
          rw [substPosChars_cons_lit '(' (by decide)]
          rw [hsub _ ps3]
          rw [substPosChars_lit_append [')'] _ _ (by decide)]
          refine Prod.ext ?_ rfl
          show '(' :: (r.data ++ (')' :: (substPosChars suffix ps3).1)) = _
          rw [show (sepJoin sep [("(" ++ r ++ ")")]) = "(" ++ r ++ ")" from rfl, paren_data]
          simp [List.append_assoc]
        | cons y cls3 =>
          cases rs2 with
          | nil => exact absurd hlen (by simp)
          | cons r2 rs3 =>
            have hjoin : (sepJoin sep (("(" ++ cl ++ ")") :: y :: cls3)).data ++ suffix =
                '(' :: (cl.data ++ ([')'] ++ (sep.data ++
                  ((sepJoin sep (y :: cls3)).data ++ suffix)))) := by
              show (("(" ++ cl ++ ")") ++ sep ++ sepJoin sep (y :: cls3)).data ++ suffix = _
              rw [String.data_append, String.data_append, paren_data]
              simp [List.append_assoc]
            rw [hjoin]
            rw [show (ps ++ ps2) ++ ps3 = ps ++ (ps2 ++ ps3) from List.append_assoc ps ps2 ps3]
            rw [substPosChars_cons_lit '(' (by decide)]
            rw [hsub _ (ps2 ++ ps3)]
            rw [substPosChars_lit_append [')'] _ _ (by decide)]
            rw [substPosChars_lit_append sep.data _ _ hsep]
            rw [hsub2 sep hsep suffix ps3]
            refine Prod.ext ?_ rfl
            show '(' :: (r.data ++ (')' :: (sep.data ++ ((sepJoin sep (r2 :: rs3)).data ++
              (substPosChars suffix ps3).1)))) = _
            rw [show (sepJoin sep (("(" ++ r ++ ")") :: r2 :: rs3)) =
              ("(" ++ r ++ ")") ++ sep ++ sepJoin sep (r2 :: rs3) from rfl]
            rw [String.data_append, String.data_append, paren_data]
            simp [List.append_assoc]

theorem substNamedChars_cons_lit (D : Dict) (c : Char) (hc : ¬ c = ':')
    (rest : List Char) :
    substNamedChars D (c :: rest) = c :: substNamedChars D rest := by
  rw [substNamedChars, if_neg hc]

theorem pfxOK_extend {pfx : String} (h : pfxOK pfx = true) (i : Nat) :
    pfxOK (pfx ++ natStr i) = true := by
  unfold pfxOK at h ⊢
  rw [Bool.and_eq_true] at h ⊢
  obtain ⟨hne, hall⟩ := h
  constructor
  · rw [Bool.not_eq_true', beq_eq_false_iff_ne] at hne ⊢
    intro hc
    have hdata := congrArg String.data hc
    rw [String.data_append] at hdata
    have := List.append_eq_nil.mp hdata
    exact absurd (String.ext this.1) hne
  · rw [List.all_eq_true] at hall ⊢
    intro c hc
    rw [String.data_append, List.mem_append] at hc
    rcases hc with hc | hc
    · exact hall c hc
    · exact isDigit_isAlphanum (natChars_isDigit i c hc)

theorem pgSubst : ∀ node : ConditionUnion, condWF node = true →
    ∀ (pfx : String) (d : Dict), pfxOK pfx = true → dictOK d →
    ((∃ e, pgBuildWhere node d pfx = .error e ∧ refCond node = .error e) ∨
     (∃ cl d2 r, pgBuildWhere node d pfx = .ok (cl, d2) ∧ refCond node = .ok r ∧
       (∃ Δ, d2 = d ++ Δ) ∧ dictOK d2 ∧
       ∀ D : Dict, (∃ Δ2, D = d2 ++ Δ2) →
       ∀ suffix, headOKB suffix = true →
         substNamedChars D (cl.data ++ suffix) = r.data ++ substNamedChars D suffix)) := by
  refine cuInd
    (Q := fun fs => condWFList fs = true →
      ∀ (pfx : String) (i : Nat) (d : Dict), pfxOK pfx = true → dictOK d →
      ((∃ e, pgGroupLoop fs i d pfx = .error e ∧ refCondList fs = .error e) ∨
       (∃ cls d2 rs, pgGroupLoop fs i d pfx = .ok (cls, d2) ∧
         refCondList fs = .ok rs ∧ cls.length = rs.length ∧
         (∃ Δ, d2 = d ++ Δ) ∧ dictOK d2 ∧
         ∀ D : Dict, (∃ Δ2, D = d2 ++ Δ2) →
         ∀ sep : String, ':' ∉ sep.data →
         ∀ suffix, headOKB suffix = true →
           substNamedChars D ((sepJoin sep cls).data ++ suffix) =
             (sepJoin sep rs).data ++ substNamedChars D suffix)))
    ?_ ?_ ?_ ?_
  · -- leaf condition
    intro c hwf pfx d hpfx hd
    unfold condWF at hwf
    rw [Bool.and_eq_true, decide_eq_true_eq] at hwf
    obtain ⟨hfield, hop⟩ := hwf
    have hfc : ':' ∉ c.field.data := (identOK_no_placeholder hfield).2
    have hpname : ∀ ch ∈ (pfx ++ "_" ++ natStr d.length).data, isNameChar ch = true :=
      scalar_key_nameChars (pfx_nameChars hpfx) d.length
    by_cases hin : c.op = "in"
    · cases hiter : pyIter c.value with
      | error e =>
        left
        exact ⟨e, by simp [pgBuildWhere, hin, hiter], by simp [refCond, hin, hiter]⟩
      | ok vs =>
        right
        have hfresh : ∀ e ∈ d, ∀ j, 0 ≤ j →
            e.1 ≠ (pfx ++ "_" ++ natStr d.length) ++ "_" ++ natStr j :=
          fun e he j _ => dict_fresh_in hd hpfx j e he
        have hloop := pgInLoop_eq (pfx ++ "_" ++ natStr d.length) vs 0 d hfresh
        have hred : pgBuildWhere (.cond c) d pfx =
            .ok (c.field ++ " IN (" ++
              sepJoin ", " ((inKeys (pfx ++ "_" ++ natStr d.length) 0 vs).map
                (fun e => ":" ++ e.1)) ++ ")",
              d ++ inKeys (pfx ++ "_" ++ natStr d.length) 0 vs) := by
          simp only [pgBuildWhere, hin, if_pos, hiter, hloop]
        refine ⟨_, _, c.field ++ " IN (" ++ sepJoin ", " (vs.map renderVal) ++ ")",
          hred, by simp [refCond, hin, hiter], ⟨_, rfl⟩,
          dictOK_append_inKeys hd hpfx vs, ?_⟩
        intro D hD suffix hsuf
        obtain ⟨Δ2, hΔ2⟩ := hD
        have hlk : ∀ e ∈ inKeys (pfx ++ "_" ++ natStr d.length) 0 vs,
            dictLookup D e.1 = some e.2 := by
          intro e he
          have hDassoc : D = d ++ (inKeys (pfx ++ "_" ++ natStr d.length) 0 vs ++ Δ2) := by
            rw [hΔ2, List.append_assoc]
          rw [hDassoc]
          refine dictLookup_block he ?_ (inKeys_pairwise _ vs 0)
          intro x hx
          obtain ⟨j, _, hej⟩ := inKeys_shape (pfx ++ "_" ++ natStr d.length) vs 0 e he
          rw [hej]
          exact dict_fresh_in hd hpfx j x hx
        have hcl : (c.field ++ " IN (" ++
            sepJoin ", " ((inKeys (pfx ++ "_" ++ natStr d.length) 0 vs).map
              (fun e => ":" ++ e.1)) ++ ")").data ++ suffix =
            c.field.data ++ (" IN (".data ++
              ((sepJoin ", " ((inKeys (pfx ++ "_" ++ natStr d.length) 0 vs).map
                (fun e => ":" ++ e.1))).data ++ ([')'] ++ suffix))) := by
          simp [String.data_append, List.append_assoc]
        rw [hcl]
        rw [substNamedChars_lit D _ hfc]
        rw [substNamedChars_lit D (" IN (".data) (by decide)]
        rw [substNamed_inPhs D _ hpname vs 0 hlk ([')'] ++ suffix) (by rfl)]
        rw [substNamedChars_lit D [')'] (by decide)]
        simp [String.data_append, List.append_assoc]
    · right
      have hfresh : ∀ e ∈ d, e.1 ≠ pfx ++ "_" ++ natStr d.length :=
        dict_fresh_scalar hd hpfx
      have hins := dictInsert_fresh c.value hfresh
      have hred : pgBuildWhere (.cond c) d pfx =
          .ok (c.field ++ " " ++ c.op ++ " :" ++ (pfx ++ "_" ++ natStr d.length),
            d ++ [(pfx ++ "_" ++ natStr d.length, c.value)]) := by
        simp only [pgBuildWhere, hin, if_neg, hins]
        rfl
      refine ⟨_, _, c.field ++ " " ++ c.op ++ " " ++ renderVal c.value,
        hred, by simp [refCond, hin], ⟨_, rfl⟩,
        dictOK_append_scalar hd hpfx c.value, ?_⟩
      intro D hD suffix hsuf
      obtain ⟨Δ2, hΔ2⟩ := hD
      have hlk : dictLookup D (pfx ++ "_" ++ natStr d.length) = some c.value := by
        have hDassoc : D = d ++ ([(pfx ++ "_" ++ natStr d.length, c.value)] ++ Δ2) := by
          rw [hΔ2, List.append_assoc]
        rw [hDassoc]
        exact dictLookup_block (List.mem_singleton.mpr rfl)
          (fun x hx => hfresh x hx) (List.pairwise_singleton _ _)
      have hcl : (c.field ++ " " ++ c.op ++ " :" ++ (pfx ++ "_" ++ natStr d.length)).data
          ++ suffix =
          c.field.data ++ ([' '] ++ (c.op.data ++ ([' '] ++
            (':' :: ((pfx ++ "_" ++ natStr d.length).data ++ suffix))))) := by
        simp [String.data_append, List.append_assoc]
      rw [hcl]
      rw [substNamedChars_lit D _ hfc]
      rw [substNamedChars_lit D [' '] (by decide)]
      rw [substNamedChars_lit D _ ((allowedOps_no_placeholder c.op hop).2)]
      rw [substNamedChars_lit D [' '] (by decide)]
      rw [substNamedChars_name D _ suffix c.value hpname hsuf (by
        rw [show String.mk (pfx ++ "_" ++ natStr d.length).data =
          pfx ++ "_" ++ natStr d.length from rfl]
        exact hlk)]
      simp [String.data_append, List.append_assoc]
  · -- group
    intro m fs hq hwf pfx d hpfx hd
    unfold condWF at hwf
    rcases hq hwf pfx 0 d hpfx hd with ⟨e, hb, hr⟩ | ⟨cls, d2, rs, hb, hr, _, hΔ, hd2, hsub⟩
    · left
      exact ⟨e, by simp [pgBuildWhere, hb], by simp [refCond, hr]⟩
    · right
      refine ⟨sepJoin (if m = "AND" then " AND " else " OR ") cls, d2,
        sepJoin (if m = "AND" then " AND " else " OR ") rs,
        by simp [pgBuildWhere, hb],
        by simp [refCond, hr], hΔ, hd2, ?_⟩
      intro D hD suffix hsuf
      exact hsub D hD _ (connector_no_colon m) suffix hsuf
  · -- empty list
    intro _ pfx i d _ hd
    right
    refine ⟨[], d, [], rfl, rfl, rfl, ⟨[], (List.append_nil d).symm⟩, hd, ?_⟩
    intro D _ sep _ suffix _
    rfl
  · -- cons
    intro n ns hp hq hwf pfx i d hpfx hd
    unfold condWFList at hwf
    rw [Bool.and_eq_true] at hwf
    obtain ⟨hwn, hwns⟩ := hwf
    have hpfx2 : pfxOK (pfx ++ natStr i) = true := pfxOK_extend hpfx i
    rcases hp hwn (pfx ++ natStr i) d hpfx2 hd with
      ⟨e, hb, hr⟩ | ⟨cl, d2, r, hb, hr, ⟨Δ1, hΔ1⟩, hd2, hsub⟩
    · left
      exact ⟨e, by simp [pgGroupLoop, hb], by simp [refCondList, hr]⟩
    · rcases hq hwns pfx (i + 1) d2 hpfx hd2 with
        ⟨e, hb2, hr2⟩ | ⟨cls2, d3, rs2, hb2, hr2, hlen, ⟨Δ2, hΔ2⟩, hd3, hsub2⟩
      · left
        exact ⟨e, by simp [pgGroupLoop, hb, hb2], by simp [refCondList, hr, hr2]⟩
      · right
        refine ⟨("(" ++ cl ++ ")") :: cls2, d3, ("(" ++ r ++ ")") :: rs2,
          by simp [pgGroupLoop, hb, hb2],
          by simp [refCondList, hr, hr2],
          by simp [hlen],
          ⟨Δ1 ++ Δ2, by rw [hΔ2, hΔ1, List.append_assoc]⟩, hd3, ?_⟩
        intro D hD sep hsep suffix hsuf
        obtain ⟨Δ3, hΔ3⟩ := hD
        have hDext2 : ∃ Δx : Dict, D = d2 ++ Δx :=
          ⟨Δ2 ++ Δ3, by rw [hΔ3, hΔ2, List.append_assoc]⟩
        cases cls2 with
        | nil =>
          have hrs2 : rs2 = [] := List.length_eq_zero.mp (by simpa using hlen.symm)
          subst hrs2
          show substNamedChars D (("(" ++ cl ++ ")").data ++ suffix) = _
          rw [paren_data]
          rw [show ('(' :: (cl.data ++ [')'])) ++ suffix =
            '(' :: (cl.data ++ ([')'] ++ suffix)) from by simp [List.append_assoc]]
          rw [substNamedChars_cons_lit D '(' (by decide)]
          rw [hsub D hDext2 ([')'] ++ suffix) (by rfl)]
          rw [substNamedChars_lit D [')'] (by decide)]
          show '(' :: (r.data ++ (')' :: substNamedChars D suffix)) = _
          rw [show (sepJoin sep [("(" ++ r ++ ")")]) = "(" ++ r ++ ")" from rfl, paren_data]
          simp [List.append_assoc]
        | cons y cls3 =>
          cases rs2 with
          | nil => exact absurd hlen (by simp)
          | cons r2 rs3 =>
            have hjoin : (sepJoin sep (("(" ++ cl ++ ")") :: y :: cls3)).data ++ suffix =
                '(' :: (cl.data ++ ([')'] ++ (sep.data ++
                  ((sepJoin sep (y :: cls3)).data ++ suffix)))) := by
              show (("(" ++ cl ++ ")") ++ sep ++ sepJoin sep (y :: cls3)).data ++ suffix = _
              rw [String.data_append, String.data_append, paren_data]
              simp [List.append_assoc]
            rw [hjoin]
            rw [substNamedChars_cons_lit D '(' (by decide)]
            rw [hsub D hDext2 ([')'] ++ (sep.data ++
              ((sepJoin sep (y :: cls3)).data ++ suffix))) (by rfl)]
            rw [substNamedChars_lit D [')'] (by decide)]
            rw [substNamedChars_lit D sep.data hsep]
            rw [hsub2 D ⟨Δ3, hΔ3⟩ sep hsep suffix hsuf]
            show '(' :: (r.data ++ (')' :: (sep.data ++ ((sepJoin sep (r2 :: rs3)).data ++
              substNamedChars D suffix)))) = _
            rw [show (sepJoin sep (("(" ++ r ++ ")") :: r2 :: rs3)) =
              ("(" ++ r ++ ")") ++ sep ++ sepJoin sep (r2 :: rs3) from rfl]
            rw [String.data_append, String.data_append, paren_data]
            simp [List.append_assoc]

theorem headOKB_append {a b : List Char} (ha : headOKB a = true)
    (hb : headOKB b = true) : headOKB (a ++ b) = true := by
  cases a with
  | nil => simpa using hb
  | cons c rest => simpa [headOKB] using ha

theorem headOKB_orderPart (q : QuerySpec) : headOKB (orderPart q).data = true := by
  cases hq : q.order_by with
  | none => simp [orderPart, hq, headOKB]
  | some os =>
    by_cases he : os.isEmpty = true
    · simp [orderPart, hq, he, headOKB]
    · simp only [orderPart, hq]
      rw [if_neg he, String.data_append]
      rfl

theorem headOKB_limitPart (q : QuerySpec) : headOKB (limitPart q).data = true := by
  cases hq : q.limit with
  | none => simp [limitPart, hq, headOKB]
  | some l =>
    by_cases he : l = 0
    · simp [limitPart, hq, he, headOKB]
    · simp only [limitPart, hq]
      rw [if_neg he, String.data_append]
      rfl

theorem headOKB_offsetPart (q : QuerySpec) : headOKB (offsetPart q).data = true := by
  by_cases he : q.offset = 0
  · simp [offsetPart, he, headOKB]
  · simp only [offsetPart]
    rw [if_neg he, String.data_append]
    rfl

theorem countChar_intStr_zero {c : Char} (hc : c.isDigit = false)
    (hm : ¬ c = '-') (i : Int) : countChar c (intStr i) = 0 := by
  unfold intStr
  split
  · rw [countChar_append, countChar_natStr_eq_zero hc]
    have h0 : countChar c "-" = 0 := by
      unfold countChar
      rw [List.count_eq_zero]
      intro hmem
      exact hm (List.mem_singleton.mp hmem)
    rw [h0]
  · exact countChar_natStr_eq_zero hc _

theorem countChar_orderPart_zero {c : Char} (hnc : isNameChar c = false)
    (h1 : countChar c " ORDER BY " = 0) (h2 : countChar c ", " = 0)
    (h3 : countChar c " " = 0) (h4 : countChar c "ASC" = 0)
    (h5 : countChar c "DESC" = 0) (q : QuerySpec)
    (hall : (match q.order_by with
             | some os => os.all (fun o => identOK o.field)
             | none => true) = true) :
    countChar c (orderPart q) = 0 := by
  cases hq : q.order_by with
  | none => simp [orderPart, hq, countChar]
  | some os =>
    rw [hq] at hall
    by_cases he : os.isEmpty = true
    · simp [orderPart, hq, he, countChar]
    · simp only [orderPart, hq]
      rw [if_neg he]
      rw [countChar_append, h1, countChar_sepJoin h2]
      have hz : ∀ x ∈ os.map (fun o =>
          o.field ++ " " ++ (if o.ascending then "ASC" else "DESC")),
          countChar c x = 0 := by
        intro x hx
        obtain ⟨o, ho, hox⟩ := List.mem_map.mp hx
        rw [← hox, countChar_append, countChar_append, h3]
        rw [countChar_identOK_eq_zero hnc (List.all_eq_true.mp hall o ho)]
        split
        · rw [h4]
        · rw [h5]
      have : (List.map (countChar c) (os.map (fun o =>
          o.field ++ " " ++ (if o.ascending then "ASC" else "DESC")))).sum = 0 := by
        apply List.sum_eq_zero
        intro x hx
        obtain ⟨p, hp, hpx⟩ := List.mem_map.mp hx
        rw [← hpx]
        exact hz p hp
      rw [this]

theorem countChar_limitPart_zero {c : Char} (hc : c.isDigit = false)
    (hm : ¬ c = '-') (h1 : countChar c " LIMIT " = 0) (q : QuerySpec) :
    countChar c (limitPart q) = 0 := by
  cases hq : q.limit with
  | none => simp [limitPart, hq, countChar]
  | some l =>
    by_cases he : l = 0
    · simp [limitPart, hq, he, countChar]
    · simp only [limitPart, hq]
      rw [if_neg he]
      rw [countChar_append, h1, countChar_intStr_zero hc hm]

theorem countChar_offsetPart_zero {c : Char} (hc : c.isDigit = false)
    (hm : ¬ c = '-') (h1 : countChar c " OFFSET " = 0) (q : QuerySpec) :
    countChar c (offsetPart q) = 0 := by
  by_cases he : q.offset = 0
  · simp [offsetPart, he, countChar]
  · simp only [offsetPart]
    rw [if_neg he]
    rw [countChar_append, h1, countChar_intStr_zero hc hm]

theorem notMem_of_countChar_zero {c : Char} {s : String}
    (h : countChar c s = 0) : c ∉ s.data :=
  List.count_eq_zero.mp h

/-- C1 counterexample: the PostgreSQL plugin does not implement the full
datasource capability set — `get_schema` and `test_connection` are required
by the capability contract but absent from `PostgreSQLDataSource`. -/
theorem postgresql_capability_gap_cex :
    "get_schema" ∈ datasourceCapabilitySet ∧
    "get_schema" ∉ postgresqlDataSourceMethods ∧
    "test_connection" ∈ datasourceCapabilitySet ∧
    "test_connection" ∉ postgresqlDataSourceMethods := by
  decide

/-- C1 amended: for every well-formed QuerySpec (identifier-safe table,
fields and validated operators), the SQLite and PostgreSQL `read` builders
either both fail with the same error, or build SQL texts that are identical
after substituting each backend's bound parameters (positional `?` for
SQLite, named `:p…` for PostgreSQL) — hence identical row sets on identical
schema and data; the spec-modelled MySQL builder coincides with the
PostgreSQL one definitionally. -/
theorem cross_backend_read_equivalence (table : String) (q : QuerySpec)
    (hwf : specWF table q = true) :
    (∀ e, sqliteReadBuild table q = .error e → pgReadBuild table q = .error e) ∧
    (∀ sql1 ps, sqliteReadBuild table q = .ok (sql1, ps) →
      ∃ sql2 d, pgReadBuild table q = .ok (sql2, d) ∧
        substPos sql1 ps = substNamed sql2 d) ∧
    mysqlReadBuild table q = pgReadBuild table q := by
  unfold specWF at hwf
  rw [Bool.and_eq_true, Bool.and_eq_true] at hwf
  obtain ⟨⟨hta, hfltm⟩, hordm⟩ := hwf
  have htq : '?' ∉ table.data := (identOK_no_placeholder hta).1
  have htc : ':' ∉ table.data := (identOK_no_placeholder hta).2
  have hoq : countChar '?' (orderPart q) = 0 :=
    countChar_orderPart_zero (by decide) (by decide) (by decide) (by decide)
      (by decide) (by decide) q hordm
  have hoc : countChar ':' (orderPart q) = 0 :=
    countChar_orderPart_zero (by decide) (by decide) (by decide) (by decide)
      (by decide) (by decide) q hordm
  have hlq : countChar '?' (limitPart q) = 0 :=
    countChar_limitPart_zero (by decide) (by decide) (by decide) q
  have hlc : countChar ':' (limitPart q) = 0 :=
    countChar_limitPart_zero (by decide) (by decide) (by decide) q
  have hfq : countChar '?' (offsetPart q) = 0 :=
    countChar_offsetPart_zero (by decide) (by decide) (by decide) q
  have hfc : countChar ':' (offsetPart q) = 0 :=
    countChar_offsetPart_zero (by decide) (by decide) (by decide) q
  have hTDq : '?' ∉ ((orderPart q).data ++ ((limitPart q).data ++ (offsetPart q).data)) := by
    intro hm
    rw [List.mem_append, List.mem_append] at hm
    rcases hm with hm | hm | hm
    · exact notMem_of_countChar_zero hoq hm
    · exact notMem_of_countChar_zero hlq hm
    · exact notMem_of_countChar_zero hfq hm
  have hTDc : ':' ∉ ((orderPart q).data ++ ((limitPart q).data ++ (offsetPart q).data)) := by
    intro hm
    rw [List.mem_append, List.mem_append] at hm
    rcases hm with hm | hm | hm
    · exact notMem_of_countChar_zero hoc hm
    · exact notMem_of_countChar_zero hlc hm
    · exact notMem_of_countChar_zero hfc hm
  have hTDhead : headOKB ((orderPart q).data ++ ((limitPart q).data ++ (offsetPart q).data)) = true :=
    headOKB_append (headOKB_orderPart q)
      (headOKB_append (headOKB_limitPart q) (headOKB_offsetPart q))
  cases hqf : q.filter with
  | none =>
    refine ⟨?_, ?_, rfl⟩
    · intro e he
      simp [sqliteReadBuild, hqf] at he
    · intro sql1 ps h
      simp only [sqliteReadBuild, hqf] at h
      injection h with h2
      have hs1 : sql1 = "SELECT * FROM " ++ table ++ orderPart q ++ limitPart q ++ offsetPart q := by
        have := congrArg Prod.fst h2
        exact this.symm
      have hps : ps = [] := by
        have := congrArg Prod.snd h2
        exact this.symm
      subst hs1
      subst hps
      refine ⟨"SELECT * FROM " ++ table ++ orderPart q ++ limitPart q ++ offsetPart q, [],
        by simp [pgReadBuild, hqf], ?_⟩
      have hS : ("SELECT * FROM " ++ table ++ orderPart q ++ limitPart q ++ offsetPart q).data =
          "SELECT * FROM ".data ++ (table.data ++
            ((orderPart q).data ++ ((limitPart q).data ++ (offsetPart q).data))) := by
        simp [String.data_append, List.append_assoc]
      have hnoq : '?' ∉ ("SELECT * FROM " ++ table ++ orderPart q ++ limitPart q ++ offsetPart q).data := by
        rw [hS]
        intro hm
        rw [List.mem_append, List.mem_append] at hm
        rcases hm with hm | hm | hm
        · exact absurd hm (by decide)
        · exact htq hm
        · exact hTDq hm
      have hnoc : ':' ∉ ("SELECT * FROM " ++ table ++ orderPart q ++ limitPart q ++ offsetPart q).data := by
        rw [hS]
        intro hm
        rw [List.mem_append, List.mem_append] at hm
        rcases hm with hm | hm | hm
        · exact absurd hm (by decide)
        · exact htc hm
        · exact hTDc hm
      unfold substPos substNamed
      rw [substPosChars_lit _ hnoq []]
      have hnamed : substNamedChars []
          ("SELECT * FROM " ++ table ++ orderPart q ++ limitPart q ++ offsetPart q).data =
          ("SELECT * FROM " ++ table ++ orderPart q ++ limitPart q ++ offsetPart q).data := by
        rw [← List.append_nil ("SELECT * FROM " ++ table ++ orderPart q ++ limitPart q ++ offsetPart q).data]
        rw [substNamedChars_lit [] _ hnoc []]
        simp [substNamedChars]
      rw [hnamed]
  | some f =>
    have hfwf : condWF f = true := by
      rw [hqf] at hfltm
      exact hfltm
    rcases sqliteSubst f hfwf with ⟨e, hbe, hre⟩ | ⟨cl, psb, r, hb, hr, hsub⟩
    · rcases pgSubst f hfwf "p" [] (by decide) dictOK_nil with
        ⟨e2, hbe2, hre2⟩ | ⟨cl2, d2, r2, hb2, hr2, _, _, _⟩
      · have he2 : e = e2 := by
          rw [hre] at hre2
          exact Except.error.inj hre2
        refine ⟨?_, ?_, rfl⟩
        · intro e0 h0
          simp only [sqliteReadBuild, hqf, hbe] at h0
          injection h0 with h0e
          subst h0e
          rw [← he2] at hbe2
          simp [pgReadBuild, hqf, hbe2]
        · intro sql1 ps h0
          simp [sqliteReadBuild, hqf, hbe] at h0
      · rw [hre] at hr2
        exact absurd hr2 (by simp)
    · rcases pgSubst f hfwf "p" [] (by decide) dictOK_nil with
        ⟨e2, hbe2, hre2⟩ | ⟨cl2, d2, r2, hb2, hr2, hΔ, hd2, hsub2⟩
      · rw [hr] at hre2
        exact absurd hre2 (by simp)
      · have hr2r : r = r2 := by
          rw [hr] at hr2
          exact Except.ok.inj hr2
        subst hr2r
        refine ⟨?_, ?_, rfl⟩
        · intro e0 h0
          simp [sqliteReadBuild, hqf, hb] at h0
        · intro sql1 ps h0
          simp only [sqliteReadBuild, hqf, hb] at h0
          injection h0 with h02
          have hs1 : sql1 = "SELECT * FROM " ++ table ++ " WHERE " ++ cl ++
              orderPart q ++ limitPart q ++ offsetPart q := by
            have := congrArg Prod.fst h02
            exact this.symm
          have hps : ps = psb := by
            have := congrArg Prod.snd h02
            exact this.symm
          subst hs1
          subst hps
          refine ⟨"SELECT * FROM " ++ table ++ " WHERE " ++ cl2 ++
            orderPart q ++ limitPart q ++ offsetPart q, d2,
            by simp [pgReadBuild, hqf, hb2], ?_⟩
          have hS1 : ("SELECT * FROM " ++ table ++ " WHERE " ++ cl ++
              orderPart q ++ limitPart q ++ offsetPart q).data =
              "SELECT * FROM ".data ++ (table.data ++ (" WHERE ".data ++ (cl.data ++
                ((orderPart q).data ++ ((limitPart q).data ++ (offsetPart q).data))))) := by
            simp [String.data_append, List.append_assoc]
          have hS2 : ("SELECT * FROM " ++ table ++ " WHERE " ++ cl2 ++
              orderPart q ++ limitPart q ++ offsetPart q).data =
              "SELECT * FROM ".data ++ (table.data ++ (" WHERE ".data ++ (cl2.data ++
                ((orderPart q).data ++ ((limitPart q).data ++ (offsetPart q).data))))) := by
            simp [String.data_append, List.append_assoc]
          have hmain : substPosChars (cl.data ++
              ((orderPart q).data ++ ((limitPart q).data ++ (offsetPart q).data))) ps =
              (r.data ++ ((orderPart q).data ++ ((limitPart q).data ++ (offsetPart q).data)), []) := by
            have h1 := hsub ((orderPart q).data ++ ((limitPart q).data ++ (offsetPart q).data)) []
            rw [List.append_nil] at h1
            rw [h1, substPosChars_lit _ hTDq []]
          have hnamed : substNamedChars d2 (cl2.data ++
              ((orderPart q).data ++ ((limitPart q).data ++ (offsetPart q).data))) =
              r.data ++ ((orderPart q).data ++ ((limitPart q).data ++ (offsetPart q).data)) := by
            rw [hsub2 d2 ⟨[], (List.append_nil d2).symm⟩ _ hTDhead]
            have h2 : substNamedChars d2
                ((orderPart q).data ++ ((limitPart q).data ++ (offsetPart q).data)) =
                (orderPart q).data ++ ((limitPart q).data ++ (offsetPart q).data) := by
              rw [← List.append_nil ((orderPart q).data ++ ((limitPart q).data ++ (offsetPart q).data))]
              rw [substNamedChars_lit d2 _ hTDc []]
              simp [substNamedChars]
            rw [h2]
          unfold substPos substNamed
          rw [hS1, hS2]
          rw [substPosChars_lit_append _ _ _ (by decide)]
          rw [substPosChars_lit_append _ _ _ htq]
          rw [substPosChars_lit_append _ _ _ (by decide)]
          rw [hmain]
          rw [substNamedChars_lit d2 _ (by decide)]
          rw [substNamedChars_lit d2 _ htc]
          rw [substNamedChars_lit d2 _ (by decide)]
          rw [hnamed]

theorem cross_backend_read_equivalence_witness :
    ∃ sql1 ps sql2 d,
      sqliteReadBuild "users"
        ⟨some 10, 5, some [⟨"age", true⟩],
          some (.group "AND" [.cond ⟨"age", ">", .vInt 25⟩,
            .cond ⟨"city", "in", .vList [.vStr "NYC", .vStr "LA"]⟩])⟩ = .ok (sql1, ps) ∧
      pgReadBuild "users"
        ⟨some 10, 5, some [⟨"age", true⟩],
          some (.group "AND" [.cond ⟨"age", ">", .vInt 25⟩,
            .cond ⟨"city", "in", .vList [.vStr "NYC", .vStr "LA"]⟩])⟩ = .ok (sql2, d) ∧
      substPos sql1 ps = substNamed sql2 d := by
  have h := cross_backend_read_equivalence "users"
    ⟨some 10, 5, some [⟨"age", true⟩],
      some (.group "AND" [.cond ⟨"age", ">", .vInt 25⟩,
        .cond ⟨"city", "in", .vList [.vStr "NYC", .vStr "LA"]⟩])⟩ (by decide)
  obtain ⟨-, hok, -⟩ := h
  obtain ⟨sql2, d, hpg, heq⟩ := hok _ _ rfl
  exact ⟨_, _, sql2, d, rfl, hpg, heq⟩

end Nocoflo
